import Mathlib

/-!
# ping-rat: packet construction and Internet checksum

A shallow embedding of `ping-rat.c`: the checksum routine `csum` and the part of `main`
that lays out the datagram (IP header, the Bloom-filter IP option, ICMP echo header).

Conventions of the embedding.

* Memory is a list of bytes (`List Nat`, every store reduces its value modulo 256).
* `unsigned long` is `L` bits wide; the C standard promises `32 ≤ L` and the usual targets
  have `L = 32` or `L = 64`.  Arithmetic on it is arithmetic modulo `2 ^ L`.
* `unsigned short` is 16 bits wide.  The program never converts byte order, so a 16-bit or
  32-bit object is laid out in memory in the byte order of the host, a parameter
  `bo : ByteOrder` of everything that touches memory.
* A read outside the buffer is undefined behaviour of the C program: `csum` returns `none`.
-/

namespace PingRat

/-! ## The checksum function (`ping-rat.c`, lines 44-52) -/

/-- The loop `for (sum = 0; nwords > 0; nwords--) sum += *buf++;` of `csum`, with the
number of remaining iterations as the last argument.  `buf` is the memory behind the
pointer, seen as 16-bit words; running off its end is an out-of-bounds read. -/
def csum_loop (L : Nat) (sum : Nat) (buf : List Nat) : Nat → Option Nat
  | 0 => some sum
  | k + 1 =>
    match buf with
    | [] => none
    | w :: rest => csum_loop L ((sum + w) % 2 ^ L) rest k

/-- The two folding statements and the return of `csum`:
`sum = (sum >> 16) + (sum & 0xffff); sum += (sum >> 16); return ~sum;`
where `~` is taken on an `L`-bit `unsigned long` and the result is truncated to the
16-bit return type. -/
def csum_finish (L : Nat) (sum : Nat) : Nat :=
  let sum := ((sum >>> 16) + (sum &&& 0xffff)) % 2 ^ L
  let sum := (sum + (sum >>> 16)) % 2 ^ L
  (2 ^ L - 1 - sum) % 2 ^ 16

/-- The function `unsigned short csum (unsigned short *buf, int nwords)`. -/
def csum (L : Nat) (buf : List Nat) (nwords : Int) : Option Nat :=
  match csum_loop L 0 buf nwords.toNat with
  | none => none
  | some sum => some (csum_finish L sum)

/-! ## The one's-complement sum, as the specification words it -/

/-- Fold every carry out of bit 15 back into the low 16 bits until no carry remains. -/
def foldCarries (s : Nat) : Nat :=
  if h : s < 65536 then s else foldCarries (s / 65536 + s % 65536)
termination_by s
decreasing_by omega

/-- The one's-complement sum of a sequence of 16-bit words: add all the words, then fold
the carries. -/
def onesComplementSum (ws : List Nat) : Nat := foldCarries ws.sum

/-- The high 16-bit half of a 32-bit value. -/
def hi16 (x : Nat) : Nat := x / 65536 % 65536

/-- The low 16-bit half of a 32-bit value. -/
def lo16 (x : Nat) : Nat := x % 65536

/-- Bitwise NOT of a 16-bit value. -/
def not16 (x : Nat) : Nat := 65535 - x % 65536

/-! ## Memory: bytes, host byte order, loads and stores -/

/-- Byte order of the host the program runs on. -/
inductive ByteOrder where
  | little
  | big
  deriving DecidableEq, Repr

/-- Store into a `char`/`u_int8_t` object at byte offset `off`. -/
def store8 (m : List Nat) (off v : Nat) : List Nat := m.set off (v % 256)

/-- Load of the byte at offset `off`. -/
def load8 (m : List Nat) (off : Nat) : Nat := m.getD off 0

/-- Store into a 16-bit object at byte offset `off`, in host byte order. -/
def store16 (bo : ByteOrder) (m : List Nat) (off v : Nat) : List Nat :=
  match bo with
  | .little => store8 (store8 m off v) (off + 1) (v / 256)
  | .big => store8 (store8 m off (v / 256)) (off + 1) v

/-- Load of a 16-bit object at byte offset `off`, in host byte order. -/
def load16 (bo : ByteOrder) (m : List Nat) (off : Nat) : Nat :=
  match bo with
  | .little => load8 m off + 256 * load8 m (off + 1)
  | .big => 256 * load8 m off + load8 m (off + 1)

/-- Store into a 32-bit object at byte offset `off`, in host byte order. -/
def store32 (bo : ByteOrder) (m : List Nat) (off v : Nat) : List Nat :=
  match bo with
  | .little => store16 .little (store16 .little m off v) (off + 2) (v / 65536)
  | .big => store16 .big (store16 .big m off (v / 65536)) (off + 2) v

/-- Load of a 32-bit object at byte offset `off`, in host byte order. -/
def load32 (bo : ByteOrder) (m : List Nat) (off : Nat) : Nat :=
  match bo with
  | .little => load16 .little m off + 65536 * load16 .little m (off + 2)
  | .big => 65536 * load16 .big m off + load16 .big m (off + 2)

/-- A run of bytes read as consecutive 16-bit objects in host byte order. -/
def words (bo : ByteOrder) : List Nat → List Nat
  | b0 :: b1 :: rest =>
    (match bo with
     | .little => b0 + 256 * b1
     | .big => 256 * b0 + b1) :: words bo rest
  | _ => []

/-- The memory behind the pointer `(unsigned short *) (m + off)`. -/
def wordsFrom (bo : ByteOrder) (m : List Nat) (off : Nat) : List Nat :=
  words bo (m.drop off)

/-- A 16-bit value read in network (big-endian) byte order from offset `off`. -/
def be16 (m : List Nat) (off : Nat) : Nat := load16 .big m off

/-! ## Sizes and field offsets

`struct ip` and `struct icmphdr` come from the system headers `<netinet/ip.h>` and
`<netinet/ip_icmp.h>`; their layout is the IPv4 and ICMP echo header layout. -/

/-- The value of `sizeof(struct ip)`. -/
def sizeof_ip : Nat := 20

/-- The value of `sizeof(struct icmphdr)`. -/
def sizeof_icmphdr : Nat := 8

/-- The macro `OPTION_SIZE`. -/
def OPTION_SIZE : Nat := 40

/-- The macro `N`, with the option size as a parameter. -/
def N (S : Nat) : Nat := sizeof_ip + sizeof_icmphdr + S

/-- Offset of `ip_tos` in `struct ip`. -/
def ip_tos : Nat := 1

/-- Offset of `ip_len` in `struct ip`. -/
def ip_len : Nat := 2

/-- Offset of `ip_id` in `struct ip`. -/
def ip_id : Nat := 4

/-- Offset of `ip_off` in `struct ip`. -/
def ip_off : Nat := 6

/-- Offset of `ip_ttl` in `struct ip`. -/
def ip_ttl : Nat := 8

/-- Offset of `ip_p` in `struct ip`. -/
def ip_p : Nat := 9

/-- Offset of `ip_sum` in `struct ip`. -/
def ip_sum : Nat := 10

/-- Offset of `ip_src` in `struct ip`. -/
def ip_src : Nat := 12

/-- Offset of `ip_dst` in `struct ip`. -/
def ip_dst : Nat := 16

/-- Offset of `type` in `struct icmphdr`. -/
def icmp_type : Nat := 0

/-- Offset of `code` in `struct icmphdr`. -/
def icmp_code : Nat := 1

/-- Offset of `checksum` in `struct icmphdr`. -/
def icmp_checksum : Nat := 2

/-- Offset of `un.echo.id` in `struct icmphdr`. -/
def icmp_id : Nat := 4

/-- Offset of `un.echo.sequence` in `struct icmphdr`. -/
def icmp_sequence : Nat := 6

/-- Assignment to the 4-bit bit-field `ip_v`: the high nibble of byte 0 (the header
declares the two bit-fields in the order that gives this on either byte order). -/
def set_ip_v (m : List Nat) (v : Nat) : List Nat :=
  m.set 0 (load8 m 0 % 16 + 16 * (v % 16))

/-- Assignment to the 4-bit bit-field `ip_hl`: the low nibble of byte 0. -/
def set_ip_hl (m : List Nat) (v : Nat) : List Nat :=
  m.set 0 (load8 m 0 / 16 * 16 + v % 16)

/-- Read of the bit-field `ip_v`. -/
def get_ip_v (m : List Nat) : Nat := load8 m 0 / 16

/-- Read of the bit-field `ip_hl`. -/
def get_ip_hl (m : List Nat) : Nat := load8 m 0 % 16

/-! ## Building the datagram (`main`, lines 120-161) -/

/-- Lines 126-130, "Building the IP options", for option size `S`:
`option = datagram + sizeof(struct ip); option[0] = 25|0x80; option[1] = S;`
`for (i = 2; i < S; i++) option[i] = 0;` -/
def build_option (S : Nat) (datagram : List Nat) : List Nat :=
  let option := sizeof_ip
  let datagram := store8 datagram (option + 0) (25 ||| 0x80)
  let datagram := store8 datagram (option + 1) S
  (List.range' 2 (S - 2)).foldl (fun d i => store8 d (option + i) 0) datagram

/-- Lines 133-146, "Building the IP Header", for option size `S`. -/
def build_ip_header (bo : ByteOrder) (S src_addr dst_addr : Nat)
    (datagram : List Nat) : List Nat :=
  let datagram := set_ip_v datagram 4
  let datagram := set_ip_hl datagram (5 + S / 4)
  let datagram := store8 datagram ip_tos 0
  let datagram := store16 bo datagram ip_len (sizeof_ip + sizeof_icmphdr + S)
  let datagram := store16 bo datagram ip_id 0
  let datagram := store16 bo datagram ip_off 0
  let datagram := store8 datagram ip_ttl 127
  let datagram := store8 datagram ip_p 1
  let datagram := store16 bo datagram ip_sum 0
  let datagram := store32 bo datagram ip_src src_addr
  store32 bo datagram ip_dst dst_addr

/-- Lines 152-158, "Building the ICMP Header", the header being at offset `icmph`. -/
def build_icmp_header (bo : ByteOrder) (icmph : Nat) (datagram : List Nat) : List Nat :=
  let datagram := store8 datagram (icmph + icmp_type) 8
  let datagram := store8 datagram (icmph + icmp_code) 0
  let datagram := store16 bo datagram (icmph + icmp_checksum) 0
  let datagram := store16 bo datagram (icmph + icmp_id) 18
  store16 bo datagram (icmph + icmp_sequence) 33

/-- The datagram as it stands before the IP checksum is computed (lines 123-146). -/
def ip_stage (bo : ByteOrder) (S src_addr dst_addr : Nat) : List Nat :=
  build_ip_header bo S src_addr dst_addr (build_option S (List.replicate (N S) 0))

/-- Lines 123-161 of `main` for option size `S`: the datagram handed to `sendto`, or
`none` if a checksum call reads outside the buffer.  `src_addr` and `dst_addr` are the
values of `src_addr` and `sin.sin_addr.s_addr`. -/
def build (L : Nat) (bo : ByteOrder) (S src_addr dst_addr : Nat) : Option (List Nat) :=
  let datagram := ip_stage bo S src_addr dst_addr
  match csum L (wordsFrom bo datagram 0) ((load16 bo datagram ip_len >>> 1 : Nat) : Int) with
  | none => none
  | some c =>
    let datagram := store16 bo datagram ip_sum c
    let icmph := sizeof_ip + S
    let datagram := build_icmp_header bo icmph datagram
    match csum L (wordsFrom bo datagram icmph) ((8 >>> 1 : Nat) : Int) with
    | none => none
    | some c => some (store16 bo datagram (icmph + icmp_checksum) c)

/-- The datagram `main` builds: `build` with the program's `OPTION_SIZE`. -/
def main_datagram (L : Nat) (bo : ByteOrder) (src_addr dst_addr : Nat) : Option (List Nat) :=
  build L bo OPTION_SIZE src_addr dst_addr

/-- The call `memset(m, c, n)` on a buffer `m` of at least `n` bytes. -/
def memset (m : List Nat) (c n : Nat) : List Nat :=
  List.replicate n (c % 256) ++ m.drop n

/-- Lines 123-161 of `main` for option size `S`, started on the array `datagram[N]` as
the stack hands it over: `stack` is its indeterminate initial contents, which line 123
overwrites. -/
def build_on (L : Nat) (bo : ByteOrder) (S : Nat) (stack : List Nat)
    (src_addr dst_addr : Nat) : Option (List Nat) :=
  let datagram := memset stack 0 (N S)
  let datagram := build_option S datagram
  let datagram := build_ip_header bo S src_addr dst_addr datagram
  match csum L (wordsFrom bo datagram 0) ((load16 bo datagram ip_len >>> 1 : Nat) : Int) with
  | none => none
  | some c =>
    let datagram := store16 bo datagram ip_sum c
    let icmph := sizeof_ip + S
    let datagram := build_icmp_header bo icmph datagram
    match csum L (wordsFrom bo datagram icmph) ((8 >>> 1 : Nat) : Int) with
    | none => none
    | some c => some (store16 bo datagram (icmph + icmp_checksum) c)

/-! ## Quantities the proofs name -/

/-- The sum `csum` accumulates in the IP checksum call of `main`:
the 34 words `ip_len >> 1` of the datagram, read in host order. -/
def ipSum (bo : ByteOrder) (A B : Nat) : Nat :=
  ((wordsFrom bo (ip_stage bo OPTION_SIZE A B) 0).take 34).sum

/-- The sum over the four words of the ICMP header, read in host order. -/
def icmpSum (bo : ByteOrder) : Nat :=
  (wordsFrom bo (build_icmp_header bo 0 (List.replicate 8 0)) 0).sum

/-- The datagram after both checksum fields are filled in with `c1` and `c2`. -/
def assembled (bo : ByteOrder) (A B c1 c2 : Nat) : List Nat :=
  store16 bo
    (build_icmp_header bo (sizeof_ip + OPTION_SIZE)
      (store16 bo (ip_stage bo OPTION_SIZE A B) ip_sum c1))
    (sizeof_ip + OPTION_SIZE + icmp_checksum) c2

/-- The constant part of `ipSum`: version/length, total length, ttl/protocol and the two
first option bytes, as host-order words. -/
def ipSumConst : ByteOrder → Nat
  | .little => 10923
  | .big => 92013

/-- The four words of the ICMP header, in host order. -/
def icmpWords : ByteOrder → List Nat
  | .little => [8, 0, 18, 33]
  | .big => [2048, 0, 18, 33]

/-- The IP checksum `main` stores. -/
def ipCsum (bo : ByteOrder) (A B : Nat) : Nat := 65535 - foldCarries (ipSum bo A B)

/-- The ICMP checksum `main` stores. -/
def icmpCsum (bo : ByteOrder) : Nat := 65535 - foldCarries (icmpSum bo)

/-- A buffer of 65539 words on which the accumulated sum is `2 ^ 32 + 0xFFFF`. -/
def longBuf : List Nat := List.replicate 65538 65535 ++ [1]

/-- The value of `sum` after the two folding statements of `csum`, lines 49-50:
`sum = (sum >> 16) + (sum & 0xffff); sum += (sum >> 16);` on an `L`-bit `unsigned long`. -/
def csum_fold (L : Nat) (sum : Nat) : Nat :=
  let sum := ((sum >>> 16) + (sum &&& 0xffff)) % 2 ^ L
  (sum + (sum >>> 16)) % 2 ^ L

/-- A 16-bit word with its two bytes exchanged. -/
def bswap16 (w : Nat) : Nat := w % 256 * 256 + w / 256 % 256

/-- The byte buffer that holds the 16-bit words `ws`, low byte first. -/
def wordBytes : List Nat → List Nat
  | [] => []
  | w :: ws => w % 256 :: w / 256 % 256 :: wordBytes ws

/-! ## Arithmetic of the checksum -/

theorem foldCarries_of_lt {s : Nat} (h : s < 65536) : foldCarries s = s := by
  rw [foldCarries]; simp [h]

theorem foldCarries_of_ge {s : Nat} (h : 65536 ≤ s) :
    foldCarries s = foldCarries (s / 65536 + s % 65536) := by
  rw [foldCarries]; simp [Nat.not_lt.mpr h]

/-- Closed form of the folded sum: `0` for `0`, and otherwise the representative of `s`
modulo `0xFFFF` in the range `1 .. 0xFFFF`. -/
theorem foldCarries_closed (s : Nat) :
    foldCarries s = if s = 0 then 0 else (s - 1) % 65535 + 1 := by
  induction s using Nat.strong_induction_on with
  | _ s ih =>
    by_cases h : s < 65536
    · rw [foldCarries_of_lt h]
      split <;> omega
    · rw [foldCarries_of_ge (by omega), ih (s / 65536 + s % 65536) (by omega)]
      split <;> split <;> omega

theorem foldCarries_lt (s : Nat) : foldCarries s < 65536 := by
  rw [foldCarries_closed]; split <;> omega

theorem two_pow_ge {L : Nat} (hL : 32 ≤ L) : 4294967296 ≤ 2 ^ L :=
  calc 4294967296 = 2 ^ 32 := by norm_num
    _ ≤ 2 ^ L := Nat.pow_le_pow_right (by norm_num) hL

theorem two_pow_split {L : Nat} (hL : 32 ≤ L) : ∃ m, 2 ^ L = 65536 * m := by
  refine ⟨2 ^ (L - 16), ?_⟩
  have h : L = 16 + (L - 16) := by omega
  conv_lhs => rw [h, pow_add]
  norm_num

theorem not_low16 {m u : Nat} (hu : u < 65536 * m) :
    (65536 * m - 1 - u) % 65536 = 65535 - u % 65536 := by
  omega

theorem two_folds_low16 {s : Nat} (hs : s < 4294967296) :
    (s / 65536 + s % 65536 + (s / 65536 + s % 65536) / 65536) % 65536 = foldCarries s := by
  have hq : s / 65536 < 65536 := by omega
  have hr : s % 65536 < 65536 := Nat.mod_lt _ (by norm_num)
  by_cases h : s < 65536
  · have h0 : s / 65536 = 0 := by omega
    have h1 : s % 65536 = s := by omega
    rw [foldCarries_of_lt h, h0, h1]
    omega
  · rw [foldCarries_of_ge (by omega)]
    have ht : s / 65536 + s % 65536 < 131071 := by omega
    generalize s / 65536 + s % 65536 = t at *
    by_cases h' : t < 65536
    · rw [foldCarries_of_lt h']
      omega
    · rw [foldCarries_of_ge (by omega), foldCarries_of_lt (by omega)]
      omega

/-- On a sum that fits 32 bits the two folding statements of `csum` fold all carries. -/
theorem csum_finish_eq {L : Nat} (hL : 32 ≤ L) {s : Nat} (hs : s < 4294967296) :
    csum_finish L s = 65535 - foldCarries s := by
  have h32 := two_pow_ge hL
  obtain ⟨m, hm⟩ := two_pow_split hL
  have e1 : s >>> 16 = s / 65536 := by rw [Nat.shiftRight_eq_div_pow]
  have e2 : s &&& 0xffff = s % 65536 := by
    have := Nat.and_pow_two_sub_one_eq_mod s 16
    simpa using this
  have h1 : (s / 65536 + s % 65536) % 2 ^ L = s / 65536 + s % 65536 :=
    Nat.mod_eq_of_lt (by omega)
  have e3 : (s / 65536 + s % 65536) >>> 16 = (s / 65536 + s % 65536) / 65536 := by
    rw [Nat.shiftRight_eq_div_pow]
  have h2 : (s / 65536 + s % 65536 + (s / 65536 + s % 65536) / 65536) % 2 ^ L
      = s / 65536 + s % 65536 + (s / 65536 + s % 65536) / 65536 :=
    Nat.mod_eq_of_lt (by omega)
  simp only [csum_finish, e1, e2, h1, e3, h2]
  rw [← two_folds_low16 hs, hm]
  exact not_low16 (by omega)

theorem csum_loop_eq (L : Nat) :
    ∀ (n : Nat) (s : Nat) (buf : List Nat), s < 2 ^ L → n ≤ buf.length →
      csum_loop L s buf n = some ((s + (buf.take n).sum) % 2 ^ L)
  | 0, s, buf, hs, _ => by
    simp [csum_loop, Nat.mod_eq_of_lt hs]
  | k + 1, s, [], _, h => by simp at h
  | k + 1, s, w :: rest, _, h => by
    have ih := csum_loop_eq L k ((s + w) % 2 ^ L) rest
      (Nat.mod_lt _ (Nat.pos_pow_of_pos L (by norm_num))) (by simpa using h)
    simp only [csum_loop, ih, List.take_succ_cons, List.sum_cons]
    rw [Nat.mod_add_mod, Nat.add_assoc]

theorem sum_le_of_words :
    ∀ (buf : List Nat), (∀ w ∈ buf, w < 65536) → buf.sum ≤ 65535 * buf.length
  | [], _ => by simp
  | w :: rest, h => by
    have h1 : w < 65536 := h w (by simp)
    have h2 := sum_le_of_words rest (fun x hx => h x (by simp [hx]))
    simp only [List.sum_cons, List.length_cons]
    omega

/-- The result of `csum` over the first `n` words of `buf`, when they are 16-bit words and
at most 65537 of them: the complement of their folded sum. -/
theorem csum_take {L : Nat} (hL : 32 ≤ L) (buf : List Nat) (n : Nat)
    (hn : n ≤ buf.length) (hw : ∀ w ∈ buf.take n, w < 65536) (hlen : n ≤ 65537) :
    csum L buf (n : Int) = some (65535 - foldCarries (buf.take n).sum) := by
  have h32 := two_pow_ge hL
  have hb := sum_le_of_words (buf.take n) hw
  have hl : (buf.take n).length = n := by simp [hn]
  have hs : (buf.take n).sum < 4294967296 := by
    rw [hl] at hb
    omega
  simp only [csum, Int.toNat_ofNat, csum_loop_eq L n 0 buf (by omega) hn, Nat.zero_add]
  rw [Nat.mod_eq_of_lt (by omega), csum_finish_eq hL hs]

/-! ## The datagram of `main`, stage by stage -/

theorem ip_words_little (A B : Nat) :
    wordsFrom .little (ip_stage .little OPTION_SIZE A B) 0 =
      [79, 68, 0, 0, 383, 0,
        A % 256 + 256 * (A / 256 % 256), A / 65536 % 256 + 256 * (A / 65536 / 256 % 256),
        B % 256 + 256 * (B / 256 % 256), B / 65536 % 256 + 256 * (B / 65536 / 256 % 256),
        10393, 0, 0, 0, 0, 0, 0, 0, 0, 0, 0, 0, 0, 0, 0, 0, 0, 0, 0, 0,
        0, 0, 0, 0] := rfl

theorem ip_words_big (A B : Nat) :
    wordsFrom .big (ip_stage .big OPTION_SIZE A B) 0 =
      [20224, 68, 0, 0, 32513, 0,
        256 * (A / 65536 / 256 % 256) + A / 65536 % 256, 256 * (A / 256 % 256) + A % 256,
        256 * (B / 65536 / 256 % 256) + B / 65536 % 256, 256 * (B / 256 % 256) + B % 256,
        39208, 0, 0, 0, 0, 0, 0, 0, 0, 0, 0, 0, 0, 0, 0, 0, 0, 0, 0, 0,
        0, 0, 0, 0] := rfl

theorem ipSum_eq (bo : ByteOrder) (A B : Nat) :
    ipSum bo A B =
      ipSumConst bo + A % 65536 + A / 65536 % 65536 + B % 65536 + B / 65536 % 65536 := by
  cases bo
  · rw [ipSum, ip_words_little]
    simp only [List.take, List.sum_cons, List.sum_nil, ipSumConst]
    omega
  · rw [ipSum, ip_words_big]
    simp only [List.take, List.sum_cons, List.sum_nil, ipSumConst]
    omega

theorem ip_words_lt (bo : ByteOrder) (A B : Nat) :
    ∀ w ∈ (wordsFrom bo (ip_stage bo OPTION_SIZE A B) 0), w < 65536 := by
  cases bo
  · rw [ip_words_little]
    simp only [List.forall_mem_cons]
    refine ⟨?_, ?_, ?_, ?_, ?_, ?_, ?_, ?_, ?_, ?_, ?_, ?_⟩
    all_goals first | omega | simp
  · rw [ip_words_big]
    simp only [List.forall_mem_cons]
    refine ⟨?_, ?_, ?_, ?_, ?_, ?_, ?_, ?_, ?_, ?_, ?_, ?_⟩
    all_goals first | omega | simp

theorem ip_stage_little (A B : Nat) :
    ip_stage .little OPTION_SIZE A B =
      [79, 0, 68, 0, 0, 0, 0, 0, 127, 1, 0, 0, A % 256, A / 256 % 256, A / 65536 % 256,
        A / 65536 / 256 % 256, B % 256, B / 256 % 256, B / 65536 % 256, B / 65536 / 256 % 256,
        153, 40, 0, 0, 0, 0, 0, 0, 0, 0, 0, 0, 0, 0, 0, 0, 0, 0, 0, 0, 0, 0, 0, 0, 0, 0, 0, 0,
        0, 0, 0, 0, 0, 0, 0, 0, 0, 0, 0, 0, 0, 0, 0, 0, 0, 0, 0, 0] := rfl

theorem icmp_stage_little (A B c1 : Nat) :
    build_icmp_header .little (sizeof_ip + OPTION_SIZE)
        (store16 .little (ip_stage .little OPTION_SIZE A B) ip_sum c1) =
      [79, 0, 68, 0, 0, 0, 0, 0, 127, 1, c1 % 256, c1 / 256 % 256, A % 256, A / 256 % 256,
        A / 65536 % 256, A / 65536 / 256 % 256, B % 256, B / 256 % 256, B / 65536 % 256,
        B / 65536 / 256 % 256, 153, 40, 0, 0, 0, 0, 0, 0, 0, 0, 0, 0, 0, 0, 0, 0, 0, 0, 0, 0,
        0, 0, 0, 0, 0, 0, 0, 0, 0, 0, 0, 0, 0, 0, 0, 0, 0, 0, 0, 0, 8, 0, 0, 0, 18, 0, 33, 0] := by
  have h2 : store16 .little (ip_stage .little OPTION_SIZE A B) ip_sum c1 =
        [79, 0, 68, 0, 0, 0, 0, 0, 127, 1, c1 % 256, c1 / 256 % 256, A % 256, A / 256 % 256,
          A / 65536 % 256, A / 65536 / 256 % 256, B % 256, B / 256 % 256, B / 65536 % 256,
          B / 65536 / 256 % 256, 153, 40, 0, 0, 0, 0, 0, 0, 0, 0, 0, 0, 0, 0, 0, 0, 0, 0, 0, 0,
          0, 0, 0, 0, 0, 0, 0, 0, 0, 0, 0, 0, 0, 0, 0, 0, 0, 0, 0, 0, 0, 0, 0, 0, 0, 0, 0, 0] := by
    rw [ip_stage_little]; rfl
  rw [h2]; rfl

theorem assembled_little (A B c1 c2 : Nat) :
    assembled .little A B c1 c2 =
      [79, 0, 68, 0, 0, 0, 0, 0, 127, 1, c1 % 256, c1 / 256 % 256, A % 256, A / 256 % 256,
        A / 65536 % 256, A / 65536 / 256 % 256, B % 256, B / 256 % 256, B / 65536 % 256,
        B / 65536 / 256 % 256, 153, 40, 0, 0, 0, 0, 0, 0, 0, 0, 0, 0, 0, 0, 0, 0, 0, 0, 0, 0,
        0, 0, 0, 0, 0, 0, 0, 0, 0, 0, 0, 0, 0, 0, 0, 0, 0, 0, 0, 0, 8, 0, c2 % 256,
        c2 / 256 % 256, 18, 0, 33, 0] := by
  rw [assembled, icmp_stage_little]; rfl

theorem ip_stage_big (A B : Nat) :
    ip_stage .big OPTION_SIZE A B =
      [79, 0, 0, 68, 0, 0, 0, 0, 127, 1, 0, 0, A / 65536 / 256 % 256, A / 65536 % 256,
        A / 256 % 256, A % 256, B / 65536 / 256 % 256, B / 65536 % 256, B / 256 % 256, B % 256,
        153, 40, 0, 0, 0, 0, 0, 0, 0, 0, 0, 0, 0, 0, 0, 0, 0, 0, 0, 0, 0, 0, 0, 0, 0, 0, 0, 0,
        0, 0, 0, 0, 0, 0, 0, 0, 0, 0, 0, 0, 0, 0, 0, 0, 0, 0, 0, 0] := rfl

theorem icmp_stage_big (A B c1 : Nat) :
    build_icmp_header .big (sizeof_ip + OPTION_SIZE)
        (store16 .big (ip_stage .big OPTION_SIZE A B) ip_sum c1) =
      [79, 0, 0, 68, 0, 0, 0, 0, 127, 1, c1 / 256 % 256, c1 % 256, A / 65536 / 256 % 256,
        A / 65536 % 256, A / 256 % 256, A % 256, B / 65536 / 256 % 256, B / 65536 % 256,
        B / 256 % 256, B % 256, 153, 40, 0, 0, 0, 0, 0, 0, 0, 0, 0, 0, 0, 0, 0, 0, 0, 0, 0, 0,
        0, 0, 0, 0, 0, 0, 0, 0, 0, 0, 0, 0, 0, 0, 0, 0, 0, 0, 0, 0, 8, 0, 0, 0, 0, 18, 0, 33] := by
  have h2 : store16 .big (ip_stage .big OPTION_SIZE A B) ip_sum c1 =
        [79, 0, 0, 68, 0, 0, 0, 0, 127, 1, c1 / 256 % 256, c1 % 256, A / 65536 / 256 % 256,
          A / 65536 % 256, A / 256 % 256, A % 256, B / 65536 / 256 % 256, B / 65536 % 256,
          B / 256 % 256, B % 256, 153, 40, 0, 0, 0, 0, 0, 0, 0, 0, 0, 0, 0, 0, 0, 0, 0, 0, 0,
          0, 0, 0, 0, 0, 0, 0, 0, 0, 0, 0, 0, 0, 0, 0, 0, 0, 0, 0, 0, 0, 0, 0, 0, 0, 0, 0, 0, 0] := by
    rw [ip_stage_big]; rfl
  rw [h2]; rfl

theorem assembled_big (A B c1 c2 : Nat) :
    assembled .big A B c1 c2 =
      [79, 0, 0, 68, 0, 0, 0, 0, 127, 1, c1 / 256 % 256, c1 % 256, A / 65536 / 256 % 256,
        A / 65536 % 256, A / 256 % 256, A % 256, B / 65536 / 256 % 256, B / 65536 % 256,
        B / 256 % 256, B % 256, 153, 40, 0, 0, 0, 0, 0, 0, 0, 0, 0, 0, 0, 0, 0, 0, 0, 0, 0, 0,
        0, 0, 0, 0, 0, 0, 0, 0, 0, 0, 0, 0, 0, 0, 0, 0, 0, 0, 0, 0, 8, 0, c2 / 256 % 256,
        c2 % 256, 0, 18, 0, 33] := by
  rw [assembled, icmp_stage_big]; rfl

theorem ip_len_loaded (bo : ByteOrder) (A B : Nat) :
    load16 bo (ip_stage bo OPTION_SIZE A B) ip_len = 68 := by
  cases bo
  · rw [ip_stage_little]; rfl
  · rw [ip_stage_big]; rfl

theorem ip_words_length (bo : ByteOrder) (A B : Nat) :
    (wordsFrom bo (ip_stage bo OPTION_SIZE A B) 0).length = 34 := by
  cases bo
  · rw [ip_words_little]; rfl
  · rw [ip_words_big]; rfl

theorem icmp_words_at (bo : ByteOrder) (A B c1 : Nat) :
    wordsFrom bo
        (build_icmp_header bo (sizeof_ip + OPTION_SIZE)
          (store16 bo (ip_stage bo OPTION_SIZE A B) ip_sum c1))
        (sizeof_ip + OPTION_SIZE)
      = icmpWords bo := by
  cases bo
  · rw [icmp_stage_little]; rfl
  · rw [icmp_stage_big]; rfl

theorem icmp_words (bo : ByteOrder) :
    wordsFrom bo (build_icmp_header bo 0 (List.replicate 8 0)) 0 = icmpWords bo := by
  cases bo <;> rfl

theorem icmpSum_eq (bo : ByteOrder) : icmpSum bo = (icmpWords bo).sum := by
  rw [icmpSum, icmp_words]

theorem csum_icmpWords {L : Nat} (hL : 32 ≤ L) (bo : ByteOrder) :
    csum L (icmpWords bo) 4 = some (65535 - foldCarries (icmpSum bo)) := by
  have h := csum_take hL (icmpWords bo) 4
    (by cases bo <;> decide) (by cases bo <;> decide) (by norm_num)
  have ht : (icmpWords bo).take 4 = icmpWords bo := by cases bo <;> rfl
  rw [ht, ← icmpSum_eq] at h
  exact h

/-- The first checksum call of `main`: over `ip_len >> 1 = 34` words from the start. -/
theorem ip_csum_call {L : Nat} (hL : 32 ≤ L) (bo : ByteOrder) (A B : Nat) :
    csum L (wordsFrom bo (ip_stage bo OPTION_SIZE A B) 0)
        ((load16 bo (ip_stage bo OPTION_SIZE A B) ip_len >>> 1 : Nat) : Int)
      = some (65535 - foldCarries (ipSum bo A B)) := by
  rw [ip_len_loaded]
  exact csum_take hL _ 34 (by rw [ip_words_length])
    (fun w hw => ip_words_lt bo A B w (List.mem_of_mem_take hw)) (by norm_num)

/-- The second checksum call of `main`: over `8 >> 1 = 4` words from the ICMP header. -/
theorem icmp_csum_call {L : Nat} (hL : 32 ≤ L) (bo : ByteOrder) (A B c1 : Nat) :
    csum L
        (wordsFrom bo
          (build_icmp_header bo (sizeof_ip + OPTION_SIZE)
            (store16 bo (ip_stage bo OPTION_SIZE A B) ip_sum c1))
          (sizeof_ip + OPTION_SIZE))
        ((8 >>> 1 : Nat) : Int)
      = some (65535 - foldCarries (icmpSum bo)) := by
  rw [icmp_words_at]
  exact csum_icmpWords hL bo

/-- The datagram `main` builds, in closed form. -/
theorem main_datagram_eq {L : Nat} (hL : 32 ≤ L) (bo : ByteOrder) (A B : Nat) :
    main_datagram L bo A B = some (assembled bo A B (ipCsum bo A B) (icmpCsum bo)) := by
  simp only [main_datagram, build, ip_csum_call hL, icmp_csum_call hL, assembled, ipCsum,
    icmpCsum]

theorem ipCsum_lt (bo : ByteOrder) (A B : Nat) : ipCsum bo A B < 65536 := by
  unfold ipCsum; omega

theorem icmpCsum_lt (bo : ByteOrder) : icmpCsum bo < 65536 := by
  unfold icmpCsum; omega

/-! ## The checksum function: claims -/

theorem longBuf_length : longBuf.length = 65539 := by
  rw [longBuf, List.length_append, List.length_replicate, List.length_singleton]

theorem longBuf_sum : longBuf.sum = 4295032831 := by
  rw [longBuf, List.sum_append, List.sum_replicate, List.sum_singleton, smul_eq_mul]

theorem longBuf_loop (L : Nat) :
    csum_loop L 0 longBuf 65539 = some (4295032831 % 2 ^ L) := by
  have h := csum_loop_eq L 65539 0 longBuf (Nat.pos_pow_of_pos L (by norm_num))
    (by rw [longBuf_length])
  rw [List.take_of_length_le (by rw [longBuf_length]), longBuf_sum] at h
  simpa using h

/-- C1 (as amended): for every sequence `buf` of at most 65537 16-bit words, with `nwords`
equal to its length, `csum` returns the bitwise NOT, truncated to 16 bits, of the
one's-complement sum of the words (the sum of all the words with every carry out of
bit 15 folded back until none remains). -/
theorem csum_eq_not_onesComplementSum (L : Nat) (hL : 32 ≤ L) (buf : List Nat)
    (hw : ∀ w ∈ buf, w < 65536) (hlen : buf.length ≤ 65537) :
    csum L buf (buf.length : Int) = some (not16 (onesComplementSum buf)) := by
  have h := csum_take hL buf buf.length (Nat.le_refl _) (by simpa using hw) hlen
  rw [List.take_length] at h
  rw [h, not16, onesComplementSum, Nat.mod_eq_of_lt (foldCarries_lt _)]

/-- Witness of C1 (as amended): a three-word buffer on a 32-bit `unsigned long`. -/
theorem csum_eq_not_onesComplementSum_witness :
    csum 32 [65535, 65535, 1] (([65535, 65535, 1] : List Nat).length : Int)
      = some (not16 (onesComplementSum [65535, 65535, 1])) :=
  csum_eq_not_onesComplementSum 32 (by decide) [65535, 65535, 1] (by decide) (by decide)

/-- C1 (as stated) fails on a buffer of 65539 words, 65538 words `0xFFFF` followed by the
word `1`: the complement of the one's-complement sum is `0xFFFE`, while `csum` returns
`0xFFFF` with a 64-bit `unsigned long` and `0` with a 32-bit one. -/
theorem csum_long_buffer_counterexample :
    (∀ w ∈ longBuf, w < 65536) ∧
    not16 (onesComplementSum longBuf) = 65534 ∧
    csum 64 longBuf (longBuf.length : Int) = some 65535 ∧
    csum 32 longBuf (longBuf.length : Int) = some 0 := by
  refine ⟨?_, ?_, ?_, ?_⟩
  · intro w hw
    simp only [longBuf, List.mem_append, List.mem_replicate, List.mem_singleton] at hw
    omega
  · rw [not16, onesComplementSum, longBuf_sum, foldCarries_closed]
    norm_num
  · rw [longBuf_length]
    have h : ((65539 : Nat) : Int).toNat = 65539 := rfl
    simp only [csum, h, longBuf_loop 64]
    decide
  · rw [longBuf_length]
    have h : ((65539 : Nat) : Int).toNat = 65539 := rfl
    simp only [csum, h, longBuf_loop 32]
    decide

theorem sum_set_add :
    ∀ (buf : List Nat) (i c : Nat), i < buf.length →
      (buf.set i c).sum + buf.getD i 0 = buf.sum + c
  | [], _, _, h => by simp at h
  | w :: rest, 0, c, _ => by
    simp only [List.set_cons_zero, List.sum_cons, List.getD_cons_zero]
    omega
  | w :: rest, i + 1, c, h => by
    have ih := sum_set_add rest i c (by simpa using h)
    simp only [List.set_cons_succ, List.sum_cons, List.getD_cons_succ]
    omega

theorem words_set_lt (buf : List Nat) (i c : Nat) (hw : ∀ w ∈ buf, w < 65536)
    (hc : c < 65536) : ∀ w ∈ buf.set i c, w < 65536 := by
  intro w hm
  rcases List.mem_or_eq_of_mem_set hm with h | h
  · exact hw w h
  · rw [h]; exact hc

/-- C6: checksum round trip.  For every buffer of at most 65537 16-bit words whose
designated checksum word (index `i`) is zero, writing `c = csum(buffer)` into that word
and applying `csum` to the resulting buffer returns 0. -/
theorem csum_round_trip (L : Nat) (hL : 32 ≤ L) (buf : List Nat) (i : Nat)
    (hw : ∀ w ∈ buf, w < 65536) (hlen : buf.length ≤ 65537)
    (hi : i < buf.length) (hz : buf.getD i 0 = 0) :
    ∃ c, csum L buf (buf.length : Int) = some c ∧
      csum L (buf.set i c) ((buf.set i c).length : Int) = some 0 := by
  have h1 := csum_take hL buf buf.length (Nat.le_refl _) (by simpa using hw) hlen
  rw [List.take_length] at h1
  refine ⟨_, h1, ?_⟩
  have hc : 65535 - foldCarries buf.sum < 65536 := by omega
  have h2 := csum_take hL (buf.set i (65535 - foldCarries buf.sum))
    (buf.set i (65535 - foldCarries buf.sum)).length (Nat.le_refl _)
    (fun w hm => words_set_lt buf i _ hw hc w (List.mem_of_mem_take hm))
    (by simpa using hlen)
  rw [List.take_length] at h2
  rw [h2]
  have hs := sum_set_add buf i (65535 - foldCarries buf.sum) hi
  rw [hz, Nat.add_zero] at hs
  rw [hs]
  have hf := foldCarries_closed buf.sum
  have hg := foldCarries_closed (buf.sum + (65535 - foldCarries buf.sum))
  generalize foldCarries (buf.sum + (65535 - foldCarries buf.sum)) = g at *
  generalize foldCarries buf.sum = f at *
  generalize buf.sum = s at *
  congr 1
  split at hf <;> split at hg <;> omega

/-- Witness of C6: the checksum word is the second of five, on a 32-bit `unsigned long`. -/
theorem csum_round_trip_witness :
    ∃ c, csum 32 [17664, 0, 65535, 4660, 1] (([17664, 0, 65535, 4660, 1] : List Nat).length : Int)
        = some c ∧
      csum 32 (([17664, 0, 65535, 4660, 1] : List Nat).set 1 c)
        (((([17664, 0, 65535, 4660, 1] : List Nat).set 1 c).length : Nat) : Int) = some 0 :=
  csum_round_trip 32 (by decide) [17664, 0, 65535, 4660, 1] 1 (by decide) (by decide)
    (by decide) (by decide)

/-- C7: for every `n ≥ 0`, `csum` applied to a buffer of `n` words that are all zero
returns `0xFFFF`. -/
theorem csum_all_zero (L : Nat) (hL : 32 ≤ L) (n : Nat) :
    csum L (List.replicate n 0) (n : Int) = some 0xFFFF := by
  have h32 := two_pow_ge hL
  have h := csum_loop_eq L n 0 (List.replicate n 0) (by omega) (by simp)
  have hs : ((List.replicate n 0).take n).sum = 0 := by
    simp [List.take_replicate]
  rw [hs] at h
  simp only [csum, Int.toNat_ofNat, h]
  rw [Nat.add_zero, Nat.zero_mod, csum_finish_eq hL (by norm_num), foldCarries_of_lt (by norm_num)]

/-- Witness of C7: a buffer of 100000 zero words on a 64-bit `unsigned long`. -/
theorem csum_all_zero_witness :
    csum 64 (List.replicate 100000 0) ((100000 : Nat) : Int) = some 0xFFFF :=
  csum_all_zero 64 (by decide) 100000

/-! ## The datagram of `main`: claims -/

theorem header_region_words (bo : ByteOrder) (A B c1 c2 : Nat) :
    wordsFrom bo ((store16 bo (assembled bo A B c1 c2) ip_sum 0).take 60) 0
      = (wordsFrom bo (ip_stage bo OPTION_SIZE A B) 0).take 30 := by
  cases bo
  · rw [assembled_little, ip_words_little]; rfl
  · rw [assembled_big, ip_words_big]; rfl

theorem header_region_sum (bo : ByteOrder) (A B : Nat) :
    ((wordsFrom bo (ip_stage bo OPTION_SIZE A B) 0).take 30).sum = ipSum bo A B := by
  cases bo
  · rw [ipSum, ip_words_little]; rfl
  · rw [ipSum, ip_words_big]; rfl

theorem load16_ip_sum (bo : ByteOrder) (A B c1 c2 : Nat) (h : c1 < 65536) :
    load16 bo (assembled bo A B c1 c2) ip_sum = c1 := by
  cases bo
  · rw [assembled_little]
    show c1 % 256 + 256 * (c1 / 256 % 256) = c1
    omega
  · rw [assembled_big]
    show 256 * (c1 / 256 % 256) + c1 % 256 = c1
    omega

theorem load16_icmp_checksum (bo : ByteOrder) (A B c1 c2 : Nat) (h : c2 < 65536) :
    load16 bo (assembled bo A B c1 c2) (sizeof_ip + OPTION_SIZE + icmp_checksum) = c2 := by
  cases bo
  · rw [assembled_little]
    show c2 % 256 + 256 * (c2 / 256 % 256) = c2
    omega
  · rw [assembled_big]
    show 256 * (c2 / 256 % 256) + c2 % 256 = c2
    omega

/-- C2: for every source `A` and destination `B` the IP checksum field (bytes 10-11) of
the built packet equals `csum` over the 30 words of the header-plus-option region
`[0,60)` with the checksum field zeroed, although `main` calls `csum` over
`ip_len >> 1 = 34` words; the 8 bytes after the option are still zero at that point. -/
theorem ip_checksum_over_header_and_option (L : Nat) (hL : 32 ≤ L) (bo : ByteOrder)
    (A B : Nat) :
    ∃ pkt, main_datagram L bo A B = some pkt ∧
      csum L (wordsFrom bo ((store16 bo pkt ip_sum 0).take 60) 0) 30
        = some (load16 bo pkt ip_sum) ∧
      load16 bo (ip_stage bo OPTION_SIZE A B) ip_len >>> 1 = 34 ∧
      (ip_stage bo OPTION_SIZE A B).drop 60 = List.replicate 8 0 := by
  refine ⟨_, main_datagram_eq hL bo A B, ?_, ?_, ?_⟩
  · rw [header_region_words, load16_ip_sum _ _ _ _ _ (ipCsum_lt bo A B)]
    have h := csum_take hL ((wordsFrom bo (ip_stage bo OPTION_SIZE A B) 0).take 30) 30
      (by rw [List.length_take, ip_words_length]; decide)
      (fun w hw => ip_words_lt bo A B w (List.mem_of_mem_take (List.mem_of_mem_take hw)))
      (by norm_num)
    rw [List.take_take, Nat.min_self, header_region_sum] at h
    exact h
  · rw [ip_len_loaded]; rfl
  · cases bo
    · rw [ip_stage_little]; rfl
    · rw [ip_stage_big]; rfl

/-- Witness of C2: a 64-bit little-endian host, source 127.0.0.1, destination 10.0.0.2. -/
theorem ip_checksum_over_header_and_option_witness :
    ∃ pkt, main_datagram 64 .little 0x0100007f 0x0200000a = some pkt ∧
      csum 64 (wordsFrom .little ((store16 .little pkt ip_sum 0).take 60) 0) 30
        = some (load16 .little pkt ip_sum) ∧
      load16 .little (ip_stage .little OPTION_SIZE 0x0100007f 0x0200000a) ip_len >>> 1 = 34 ∧
      (ip_stage .little OPTION_SIZE 0x0100007f 0x0200000a).drop 60 = List.replicate 8 0 :=
  ip_checksum_over_header_and_option 64 (by decide) .little 0x0100007f 0x0200000a

/-- C3: for every source `A` and destination `B` the ICMP checksum field (bytes 62-63) of
the built packet equals `csum` over the 4 words of the 8-byte probe header alone, built
in a buffer of its own (type 8, code 0, zero checksum, identifier 18, sequence 33);
these are the packet bytes `[60,68)` with the checksum field zeroed, and no byte of the
IP header or of the option enters. -/
theorem icmp_checksum_over_probe_header_alone (L : Nat) (hL : 32 ≤ L) (bo : ByteOrder)
    (A B : Nat) :
    ∃ pkt, main_datagram L bo A B = some pkt ∧
      csum L (wordsFrom bo (build_icmp_header bo 0 (List.replicate sizeof_icmphdr 0)) 0) 4
        = some (load16 bo pkt (sizeof_ip + OPTION_SIZE + icmp_checksum)) ∧
      (store16 bo pkt (sizeof_ip + OPTION_SIZE + icmp_checksum) 0).drop (sizeof_ip + OPTION_SIZE)
        = build_icmp_header bo 0 (List.replicate sizeof_icmphdr 0) ∧
      load8 pkt 60 = 8 ∧ load8 pkt 61 = 0 ∧ load16 bo pkt 64 = 18 ∧ load16 bo pkt 66 = 33 := by
  refine ⟨_, main_datagram_eq hL bo A B, ?_, ?_, ?_⟩
  · rw [load16_icmp_checksum _ _ _ _ _ (icmpCsum_lt bo)]
    show csum L (wordsFrom bo (build_icmp_header bo 0 (List.replicate 8 0)) 0) 4 = _
    rw [icmp_words]
    exact csum_icmpWords hL bo
  · cases bo
    · rw [assembled_little]; rfl
    · rw [assembled_big]; rfl
  · cases bo
    · rw [assembled_little]; exact ⟨rfl, rfl, rfl, rfl⟩
    · rw [assembled_big]; exact ⟨rfl, rfl, rfl, rfl⟩

/-- Witness of C3: a 32-bit big-endian host, source 127.0.0.1, destination 10.0.0.2. -/
theorem icmp_checksum_over_probe_header_alone_witness :
    ∃ pkt, main_datagram 32 .big 0x7f000001 0x0a000002 = some pkt ∧
      csum 32 (wordsFrom .big (build_icmp_header .big 0 (List.replicate sizeof_icmphdr 0)) 0) 4
        = some (load16 .big pkt (sizeof_ip + OPTION_SIZE + icmp_checksum)) ∧
      (store16 .big pkt (sizeof_ip + OPTION_SIZE + icmp_checksum) 0).drop
          (sizeof_ip + OPTION_SIZE)
        = build_icmp_header .big 0 (List.replicate sizeof_icmphdr 0) ∧
      load8 pkt 60 = 8 ∧ load8 pkt 61 = 0 ∧ load16 .big pkt 64 = 18 ∧ load16 .big pkt 66 = 33 :=
  icmp_checksum_over_probe_header_alone 32 (by decide) .big 0x7f000001 0x0a000002

theorem load32_addr (bo : ByteOrder) (a0 a1 a2 a3 : Nat) (X : Nat) (hX : X < 4294967296)
    (h : match bo with
      | .little => a0 = X % 256 ∧ a1 = X / 256 % 256 ∧ a2 = X / 65536 % 256
          ∧ a3 = X / 65536 / 256 % 256
      | .big => a3 = X % 256 ∧ a2 = X / 256 % 256 ∧ a1 = X / 65536 % 256
          ∧ a0 = X / 65536 / 256 % 256) :
    (match bo with
      | .little => (a0 + 256 * a1) + 65536 * (a2 + 256 * a3)
      | .big => 65536 * (256 * a0 + a1) + (256 * a2 + a3)) = X := by
  cases bo <;> simp only at h ⊢ <;> omega

theorem get_ip_v_cons (b : Nat) (l : List Nat) : get_ip_v (b :: l) = b / 16 := rfl

theorem get_ip_hl_cons (b : Nat) (l : List Nat) : get_ip_hl (b :: l) = b % 16 := rfl

/-- C4: for every source `A` and destination `B` (32-bit values) the built IP header has
version 4, header length 15 = 5 + 40/4 words, total length 68 = 20 + 40 + 8 (the field
as the program reads it), time-to-live 127, protocol 1, source `A` and destination `B`;
4 x header length = 60 is the offset of the probe header, and the total-length field
equals the buffer size `N`, which is the length of the packet. -/
theorem ip_header_fields (L : Nat) (hL : 32 ≤ L) (bo : ByteOrder) (A B : Nat)
    (hA : A < 2 ^ 32) (hB : B < 2 ^ 32) :
    ∃ pkt, main_datagram L bo A B = some pkt ∧
      get_ip_v pkt = 4 ∧
      get_ip_hl pkt = 15 ∧ 15 = 5 + OPTION_SIZE / 4 ∧
      load16 bo pkt ip_len = 68 ∧ 68 = sizeof_ip + OPTION_SIZE + sizeof_icmphdr ∧
      load8 pkt ip_ttl = 127 ∧
      load8 pkt ip_p = 1 ∧
      load32 bo pkt ip_src = A ∧
      load32 bo pkt ip_dst = B ∧
      4 * get_ip_hl pkt = sizeof_ip + OPTION_SIZE ∧
      load16 bo pkt ip_len = N OPTION_SIZE ∧
      pkt.length = N OPTION_SIZE := by
  refine ⟨_, main_datagram_eq hL bo A B, ?_⟩
  have hA' : A < 4294967296 := by simpa using hA
  have hB' : B < 4294967296 := by simpa using hB
  cases bo
  · rw [assembled_little]
    refine ⟨?_, ?_, rfl, rfl, rfl, rfl, rfl, ?_, ?_, ?_, rfl, rfl⟩
    · rw [get_ip_v_cons]
    · rw [get_ip_hl_cons]
    · exact load32_addr .little _ _ _ _ A hA' ⟨rfl, rfl, rfl, rfl⟩
    · exact load32_addr .little _ _ _ _ B hB' ⟨rfl, rfl, rfl, rfl⟩
    · rw [get_ip_hl_cons]
      rfl
  · rw [assembled_big]
    refine ⟨?_, ?_, rfl, rfl, rfl, rfl, rfl, ?_, ?_, ?_, rfl, rfl⟩
    · rw [get_ip_v_cons]
    · rw [get_ip_hl_cons]
    · exact load32_addr .big _ _ _ _ A hA' ⟨rfl, rfl, rfl, rfl⟩
    · exact load32_addr .big _ _ _ _ B hB' ⟨rfl, rfl, rfl, rfl⟩
    · rw [get_ip_hl_cons]
      rfl

/-- Witness of C4: a 64-bit little-endian host, source 127.0.0.1, destination 10.0.0.2. -/
theorem ip_header_fields_witness :
    ∃ pkt, main_datagram 64 .little 0x0100007f 0x0200000a = some pkt ∧
      get_ip_v pkt = 4 ∧
      get_ip_hl pkt = 15 ∧ 15 = 5 + OPTION_SIZE / 4 ∧
      load16 .little pkt ip_len = 68 ∧ 68 = sizeof_ip + OPTION_SIZE + sizeof_icmphdr ∧
      load8 pkt ip_ttl = 127 ∧
      load8 pkt ip_p = 1 ∧
      load32 .little pkt ip_src = 0x0100007f ∧
      load32 .little pkt ip_dst = 0x0200000a ∧
      4 * get_ip_hl pkt = sizeof_ip + OPTION_SIZE ∧
      load16 .little pkt ip_len = N OPTION_SIZE ∧
      pkt.length = N OPTION_SIZE :=
  ip_header_fields 64 (by decide) .little 0x0100007f 0x0200000a (by decide) (by decide)

/-- C5: for every source `A` and destination `B` the built packet is exactly 68 bytes
(20 + 40 + 8); bytes `[20,60)` are the option, byte 20 = 0x99 = 25 | 0x80, byte 21 = 40,
bytes 22..59 all zero; bytes `[60,68)` are the probe header with byte 60 = 8 (type) and
byte 61 = 0 (code). -/
theorem packet_layout (L : Nat) (hL : 32 ≤ L) (bo : ByteOrder) (A B : Nat) :
    ∃ pkt, main_datagram L bo A B = some pkt ∧
      pkt.length = 68 ∧ 68 = sizeof_ip + OPTION_SIZE + sizeof_icmphdr ∧
      (pkt.drop 20).take 40 = 0x99 :: 40 :: List.replicate 38 0 ∧
      load8 pkt 20 = 0x99 ∧ 0x99 = (25 ||| 0x80) ∧
      load8 pkt 21 = 40 ∧
      (pkt.drop 22).take 38 = List.replicate 38 0 ∧
      (pkt.drop 60).length = 8 ∧
      load8 pkt 60 = 8 ∧
      load8 pkt 61 = 0 := by
  refine ⟨_, main_datagram_eq hL bo A B, ?_⟩
  cases bo
  · rw [assembled_little]
    exact ⟨rfl, rfl, rfl, rfl, rfl, rfl, rfl, rfl, rfl, rfl⟩
  · rw [assembled_big]
    exact ⟨rfl, rfl, rfl, rfl, rfl, rfl, rfl, rfl, rfl, rfl⟩

/-- Witness of C5: a 32-bit big-endian host, source 127.0.0.1, destination 10.0.0.2. -/
theorem packet_layout_witness :
    ∃ pkt, main_datagram 32 .big 0x7f000001 0x0a000002 = some pkt ∧
      pkt.length = 68 ∧ 68 = sizeof_ip + OPTION_SIZE + sizeof_icmphdr ∧
      (pkt.drop 20).take 40 = 0x99 :: 40 :: List.replicate 38 0 ∧
      load8 pkt 20 = 0x99 ∧ 0x99 = (25 ||| 0x80) ∧
      load8 pkt 21 = 40 ∧
      (pkt.drop 22).take 38 = List.replicate 38 0 ∧
      (pkt.drop 60).length = 8 ∧
      load8 pkt 60 = 8 ∧
      load8 pkt 61 = 0 :=
  packet_layout 32 (by decide) .big 0x7f000001 0x0a000002

/-! ## The option, for a general size `S` -/

theorem fill_getElem? :
    ∀ (n start : Nat) (m : List Nat) (j : Nat),
      ((List.range' start n).foldl (fun d i => store8 d (sizeof_ip + i) 0) m)[j]? =
        if sizeof_ip + start ≤ j ∧ j < sizeof_ip + start + n ∧ j < m.length then some 0
        else m[j]?
  | 0, start, m, j => by
    have h : ¬ (sizeof_ip + start ≤ j ∧ j < sizeof_ip + start + 0 ∧ j < m.length) := by omega
    simp only [List.range'_zero, List.foldl_nil, if_neg h]
  | n + 1, start, m, j => by
    rw [List.range'_succ, List.foldl_cons, fill_getElem? n (start + 1)]
    simp only [store8, List.length_set, List.getElem?_set, Nat.zero_mod]
    by_cases h1 : sizeof_ip + start = j
    · subst h1
      by_cases h2 : sizeof_ip + start < m.length
      · rw [if_neg (by omega), if_pos rfl, if_pos h2, if_pos ⟨Nat.le_refl _, by omega, h2⟩]
      · rw [if_neg (by omega), if_pos rfl, if_neg h2, if_neg (by omega)]
        exact (List.getElem?_eq_none (by omega)).symm
    · rw [if_neg h1]
      by_cases h3 : sizeof_ip + (start + 1) ≤ j ∧ j < sizeof_ip + (start + 1) + n ∧ j < m.length
      · rw [if_pos h3, if_pos (by omega)]
      · rw [if_neg h3, if_neg (by omega)]

theorem build_option_getElem? (S : Nat) (d : List Nat) (j : Nat)
    (hS : 2 ≤ S) (hd : sizeof_ip + S ≤ d.length) :
    (build_option S d)[j]? =
      if j = sizeof_ip then some 0x99
      else if j = sizeof_ip + 1 then some (S % 256)
      else if sizeof_ip + 2 ≤ j ∧ j < sizeof_ip + S then some 0
      else d[j]? := by
  have e : (25 ||| 0x80) % 256 = 0x99 := by decide
  show ((List.range' 2 (S - 2)).foldl (fun d i => store8 d (sizeof_ip + i) 0)
    (store8 (store8 d (sizeof_ip + 0) (25 ||| 0x80)) (sizeof_ip + 1) S))[j]? = _
  rw [fill_getElem?]
  simp only [store8, List.length_set, List.getElem?_set, e, Nat.add_zero]
  by_cases h0 : j = sizeof_ip
  · subst h0
    rw [if_neg (by omega), if_neg (by omega), if_pos rfl, if_pos (by omega), if_pos rfl]
  · by_cases h1 : j = sizeof_ip + 1
    · subst h1
      rw [if_neg (by omega), if_pos rfl, if_pos (by omega), if_neg (by omega), if_pos rfl]
    · rw [if_neg h0, if_neg h1]
      by_cases h2 : sizeof_ip + 2 ≤ j ∧ j < sizeof_ip + S
      · rw [if_pos h2, if_pos (by omega)]
      · rw [if_neg h2, if_neg (by omega), if_neg (fun h => h1 h.symm),
          if_neg (fun h => h0 h.symm)]

theorem build_option_length (S : Nat) (d : List Nat) : (build_option S d).length = d.length := by
  have h : ∀ (l : List Nat) (m : List Nat),
      (l.foldl (fun d i => store8 d (sizeof_ip + i) 0) m).length = m.length := by
    intro l
    induction l with
    | nil => intro m; rfl
    | cons a l ih => intro m; rw [List.foldl_cons, ih]; simp [store8]
  show ((List.range' 2 (S - 2)).foldl (fun d i => store8 d (sizeof_ip + i) 0)
    (store8 (store8 d (sizeof_ip + 0) (25 ||| 0x80)) (sizeof_ip + 1) S)).length = _
  rw [h]
  simp only [store8, List.length_set]

/-- C8 (as amended): for every even option size `S` with `2 ≤ S ≤ 255`, the
option-building steps, run on any buffer of `N` bytes, produce exactly `S` option bytes
at `[20, 20+S)`: byte 0 is `0x99 = 25 | 0x80`, with its high bit set, byte 1 is `S`, and
bytes `2..S-1` are all zero; the bytes outside the option are left as they were. -/
theorem option_bytes (S : Nat) (hS2 : 2 ≤ S) (hS255 : S ≤ 255) (_hSeven : S % 2 = 0)
    (d : List Nat) (hd : d.length = N S) :
    ((build_option S d).drop sizeof_ip).take S = 0x99 :: S :: List.replicate (S - 2) 0 ∧
    (((build_option S d).drop sizeof_ip).take S).length = S ∧
    0x99 = (25 ||| 0x80) ∧ Nat.testBit 0x99 7 = true ∧
    (build_option S d).length = d.length ∧
    (build_option S d).take sizeof_ip = d.take sizeof_ip ∧
    (build_option S d).drop (sizeof_ip + S) = d.drop (sizeof_ip + S) := by
  have hN : d.length = sizeof_ip + sizeof_icmphdr + S := hd
  have hlen : sizeof_ip + S ≤ d.length := by omega
  have h20 : sizeof_ip = 20 := rfl
  have hmod : S % 256 = S := Nat.mod_eq_of_lt (by omega)
  have hbytes : ((build_option S d).drop sizeof_ip).take S
      = 0x99 :: S :: List.replicate (S - 2) 0 := by
    apply List.ext_getElem?
    intro k
    rw [List.getElem?_take, List.getElem?_drop, build_option_getElem? S d _ hS2 hlen, hmod]
    match k with
    | 0 =>
      rw [if_pos (by omega), if_pos (Nat.add_zero _)]
      rfl
    | 1 =>
      rw [if_pos (by omega), if_neg (by omega), if_pos rfl]
      simp
    | k + 2 =>
      simp only [List.getElem?_cons_succ, List.getElem?_replicate]
      by_cases hk : k + 2 < S
      · rw [if_pos hk, if_neg (by omega), if_neg (by omega), if_pos (by omega),
          if_pos (by omega)]
      · rw [if_neg hk, if_neg (by omega)]
  refine ⟨hbytes, ?_, by decide, by decide, build_option_length S d, ?_, ?_⟩
  · rw [hbytes]
    simp only [List.length_cons, List.length_replicate]
    omega
  · apply List.ext_getElem?
    intro k
    rw [List.getElem?_take, List.getElem?_take, build_option_getElem? S d _ hS2 hlen]
    by_cases hk : k < sizeof_ip
    · rw [if_pos hk, if_pos hk, if_neg (by omega), if_neg (by omega), if_neg (by omega)]
    · rw [if_neg hk, if_neg hk]
  · apply List.ext_getElem?
    intro k
    rw [List.getElem?_drop, List.getElem?_drop, build_option_getElem? S d _ hS2 hlen,
      if_neg (by omega), if_neg (by omega), if_neg (by omega)]

/-- Witness of C8 (as amended): `S = 4` on a 32-byte buffer that is not zero-filled. -/
theorem option_bytes_witness :
    ((build_option 4 (List.replicate 32 7)).drop sizeof_ip).take 4
        = 0x99 :: 4 :: List.replicate (4 - 2) 0 ∧
    (((build_option 4 (List.replicate 32 7)).drop sizeof_ip).take 4).length = 4 ∧
    0x99 = (25 ||| 0x80) ∧ Nat.testBit 0x99 7 = true ∧
    (build_option 4 (List.replicate 32 7)).length = (List.replicate 32 7).length ∧
    (build_option 4 (List.replicate 32 7)).take sizeof_ip
        = (List.replicate 32 7).take sizeof_ip ∧
    (build_option 4 (List.replicate 32 7)).drop (sizeof_ip + 4)
        = (List.replicate 32 7).drop (sizeof_ip + 4) :=
  option_bytes 4 (by decide) (by decide) (by decide) (List.replicate 32 7) (by decide)

/-- C8 (as stated) fails at the even size `S = 256`: the length byte of the option is a
`char`, so byte 1 is `256 mod 256 = 0`, not `S`. -/
theorem option_length_byte_wraps :
    2 ≤ 256 ∧ 256 % 2 = 0 ∧
    load8 (build_option 256 (List.replicate (N 256) 0)) (sizeof_ip + 1) = 0 ∧
    load8 (build_option 256 (List.replicate (N 256) 0)) (sizeof_ip + 1) ≠ 256 := by
  have h : load8 (build_option 256 (List.replicate (N 256) 0)) (sizeof_ip + 1) = 0 := by
    have hg := build_option_getElem? 256 (List.replicate (N 256) 0) (sizeof_ip + 1)
      (by decide) (by simp [N])
    rw [if_neg (by decide), if_pos rfl] at hg
    rw [load8, List.getD_eq_getElem?_getD, hg]
    rfl
  refine ⟨by decide, by decide, h, ?_⟩
  rw [h]
  decide

/-! ## Byte order and the destination address -/

/-- C9 (as amended): the 16-bit header fields the builder assigns are stored in the byte
order of the host, the program converting none of them: for every `A` and `B`, bytes
2-3, 64-65 and 66-67 read in host order give the total length 68, the identifier 18 and
the sequence 33.  On a big-endian host this is network order (bytes 2-3 are 0x00, 0x44);
on a little-endian host the low byte comes first (bytes 2-3 are 0x44, 0x00). -/
theorem header_fields_in_host_order (L : Nat) (hL : 32 ≤ L) (bo : ByteOrder) (A B : Nat) :
    ∃ pkt, main_datagram L bo A B = some pkt ∧
      load16 bo pkt ip_len = 68 ∧
      load16 bo pkt (sizeof_ip + OPTION_SIZE + icmp_id) = 18 ∧
      load16 bo pkt (sizeof_ip + OPTION_SIZE + icmp_sequence) = 33 ∧
      (match bo with
       | .big =>
         load8 pkt 2 = 0x00 ∧ load8 pkt 3 = 0x44 ∧
         be16 pkt 2 = 68 ∧ be16 pkt 64 = 18 ∧ be16 pkt 66 = 33
       | .little =>
         load8 pkt 2 = 0x44 ∧ load8 pkt 3 = 0x00 ∧
         load8 pkt 64 = 18 ∧ load8 pkt 65 = 0 ∧ load8 pkt 66 = 33 ∧ load8 pkt 67 = 0) := by
  refine ⟨_, main_datagram_eq hL bo A B, ?_⟩
  cases bo
  · rw [assembled_little]
    exact ⟨rfl, rfl, rfl, rfl, rfl, rfl, rfl, rfl, rfl⟩
  · rw [assembled_big]
    exact ⟨rfl, rfl, rfl, rfl, rfl, rfl, rfl, rfl⟩

/-- Witness of C9 (as amended): a 32-bit big-endian host. -/
theorem header_fields_in_host_order_witness :
    ∃ pkt, main_datagram 32 .big 0x7f000001 0x0a000002 = some pkt ∧
      load16 .big pkt ip_len = 68 ∧
      load16 .big pkt (sizeof_ip + OPTION_SIZE + icmp_id) = 18 ∧
      load16 .big pkt (sizeof_ip + OPTION_SIZE + icmp_sequence) = 33 ∧
      (load8 pkt 2 = 0x00 ∧ load8 pkt 3 = 0x44 ∧
        be16 pkt 2 = 68 ∧ be16 pkt 64 = 18 ∧ be16 pkt 66 = 33) :=
  header_fields_in_host_order 32 (by decide) .big 0x7f000001 0x0a000002

/-- C9 (as stated) fails on a little-endian host: for source 127.0.0.1 and destination
10.0.0.2 bytes 2-3 of the built packet are 0x44, 0x00, which read big-endian give 17408,
not 68; the identifier and sequence bytes read big-endian give 4608 and 8448, not 18
and 33. -/
theorem little_endian_fields_not_network_order :
    ∃ pkt, main_datagram 64 .little 0x0100007f 0x0200000a = some pkt ∧
      load8 pkt 2 = 0x44 ∧ load8 pkt 3 = 0x00 ∧
      be16 pkt 2 = 17408 ∧ be16 pkt 64 = 4608 ∧ be16 pkt 66 = 8448 := by
  refine ⟨_, main_datagram_eq (by decide) .little 0x0100007f 0x0200000a, ?_⟩
  rw [assembled_little]
  exact ⟨rfl, rfl, rfl, rfl, rfl⟩

theorem ipSumConst_pos (bo : ByteOrder) : 0 < ipSumConst bo := by
  cases bo <;> decide

theorem complement_ne_iff (C x y : Nat) (hC : 0 < C) :
    65535 - ((C + x - 1) % 65535 + 1) ≠ 65535 - ((C + y - 1) % 65535 + 1)
      ↔ x % 65535 ≠ y % 65535 := by
  omega

theorem ipCsum_ne_iff (bo : ByteOrder) (A B B' : Nat) :
    ipCsum bo A B ≠ ipCsum bo A B'
      ↔ (hi16 B + lo16 B) % 65535 ≠ (hi16 B' + lo16 B') % 65535 := by
  have hK := ipSumConst_pos bo
  have h := complement_ne_iff (ipSumConst bo + A % 65536 + A / 65536 % 65536)
    (hi16 B + lo16 B) (hi16 B' + lo16 B') (by omega)
  have e : ∀ X, ipSum bo A X
      = ipSumConst bo + A % 65536 + A / 65536 % 65536 + (hi16 X + lo16 X) := by
    intro X
    rw [ipSum_eq, hi16, lo16]
    omega
  rw [ipCsum, ipCsum, foldCarries_closed, foldCarries_closed, e, e,
    if_neg (by omega), if_neg (by omega)]
  exact h

theorem lo16_bytes (X : Nat) : lo16 X = X % 256 + 256 * (X / 256 % 256) := by
  unfold lo16; omega

theorem hi16_bytes (X : Nat) :
    hi16 X = X / 65536 % 256 + 256 * (X / 65536 / 256 % 256) := by
  unfold hi16; omega

theorem dst_halves_network_order (bo : ByteOrder) (A B B' c1 c2 d1 d2 : Nat) :
    (be16 (assembled bo A B c1 c2) ip_dst + be16 (assembled bo A B c1 c2) (ip_dst + 2)) % 65535
        ≠ (be16 (assembled bo A B' d1 d2) ip_dst
            + be16 (assembled bo A B' d1 d2) (ip_dst + 2)) % 65535
      ↔ (hi16 B + lo16 B) % 65535 ≠ (hi16 B' + lo16 B') % 65535 := by
  cases bo
  · rw [assembled_little, assembled_little]
    show (256 * (B % 256) + B / 256 % 256
          + (256 * (B / 65536 % 256) + B / 65536 / 256 % 256)) % 65535
        ≠ (256 * (B' % 256) + B' / 256 % 256
          + (256 * (B' / 65536 % 256) + B' / 65536 / 256 % 256)) % 65535 ↔ _
    rw [hi16_bytes, lo16_bytes, hi16_bytes, lo16_bytes]
    generalize B % 256 = x0, B / 256 % 256 = x1, B / 65536 % 256 = x2,
      B / 65536 / 256 % 256 = x3, B' % 256 = y0, B' / 256 % 256 = y1,
      B' / 65536 % 256 = y2, B' / 65536 / 256 % 256 = y3
    omega
  · rw [assembled_big, assembled_big]
    show (256 * (B / 65536 / 256 % 256) + B / 65536 % 256
          + (256 * (B / 256 % 256) + B % 256)) % 65535
        ≠ (256 * (B' / 65536 / 256 % 256) + B' / 65536 % 256
          + (256 * (B' / 256 % 256) + B' % 256)) % 65535 ↔ _
    rw [hi16_bytes, lo16_bytes, hi16_bytes, lo16_bytes]
    generalize B % 256 = x0, B / 256 % 256 = x1, B / 65536 % 256 = x2,
      B / 65536 / 256 % 256 = x3, B' % 256 = y0, B' / 256 % 256 = y1,
      B' / 65536 % 256 = y2, B' / 65536 / 256 % 256 = y3
    omega

/-- C10: for every source `A` and destinations `B` and `B'`, the IP checksums of the
packets built for `(A,B)` and `(A,B')` differ if and only if the sums of the two 16-bit
halves of `B` and of `B'` are incongruent modulo `0xFFFF`; the halves may be taken of the
32-bit values the program holds or, in network order, of the destination bytes of the
packets. -/
theorem ip_checksum_differs_iff (L : Nat) (hL : 32 ≤ L) (bo : ByteOrder) (A B B' : Nat) :
    ∃ p p', main_datagram L bo A B = some p ∧ main_datagram L bo A B' = some p' ∧
      (load16 bo p ip_sum ≠ load16 bo p' ip_sum
        ↔ (hi16 B + lo16 B) % 65535 ≠ (hi16 B' + lo16 B') % 65535) ∧
      (load16 bo p ip_sum ≠ load16 bo p' ip_sum
        ↔ (be16 p ip_dst + be16 p (ip_dst + 2)) % 65535
            ≠ (be16 p' ip_dst + be16 p' (ip_dst + 2)) % 65535) := by
  refine ⟨_, _, main_datagram_eq hL bo A B, main_datagram_eq hL bo A B', ?_⟩
  rw [load16_ip_sum _ _ _ _ _ (ipCsum_lt bo A B), load16_ip_sum _ _ _ _ _ (ipCsum_lt bo A B'),
    dst_halves_network_order]
  exact ⟨ipCsum_ne_iff bo A B B', ipCsum_ne_iff bo A B B'⟩

/-- Witness of C10: destinations 10.0.0.2 and 10.0.0.3 seen from a 64-bit little-endian
host. -/
theorem ip_checksum_differs_iff_witness :
    ∃ p p', main_datagram 64 .little 0x0100007f 0x0200000a = some p ∧
      main_datagram 64 .little 0x0100007f 0x0300000a = some p' ∧
      (load16 .little p ip_sum ≠ load16 .little p' ip_sum
        ↔ (hi16 0x0200000a + lo16 0x0200000a) % 65535
            ≠ (hi16 0x0300000a + lo16 0x0300000a) % 65535) ∧
      (load16 .little p ip_sum ≠ load16 .little p' ip_sum
        ↔ (be16 p ip_dst + be16 p (ip_dst + 2)) % 65535
            ≠ (be16 p' ip_dst + be16 p' (ip_dst + 2)) % 65535) :=
  ip_checksum_differs_iff 64 (by decide) .little 0x0100007f 0x0200000a 0x0300000a

/-! ## The probe header and the finished packet -/

theorem assembled_probe_header (bo : ByteOrder) (A B c1 c2 : Nat) :
    (assembled bo A B c1 c2).drop (sizeof_ip + OPTION_SIZE)
      = store16 bo (build_icmp_header bo 0 (List.replicate sizeof_icmphdr 0)) icmp_checksum c2 := by
  cases bo
  · rw [assembled_little]; rfl
  · rw [assembled_big]; rfl

theorem probe_header_length (bo : ByteOrder) (c2 : Nat) :
    (store16 bo (build_icmp_header bo 0 (List.replicate sizeof_icmphdr 0))
      icmp_checksum c2).length = 8 := by
  cases bo <;> rfl

/-- C11: for all address pairs `(A,B)` and `(A',B')` the 8 probe-header bytes (packet
bytes `[60,68)`) of the two built packets, and so their checksum fields, are identical:
the probe header does not depend on the addresses. -/
theorem probe_header_independent_of_addresses (L : Nat) (hL : 32 ≤ L) (bo : ByteOrder)
    (A B A' B' : Nat) :
    ∃ p p', main_datagram L bo A B = some p ∧ main_datagram L bo A' B' = some p' ∧
      p.drop (sizeof_ip + OPTION_SIZE) = p'.drop (sizeof_ip + OPTION_SIZE) ∧
      (p.drop (sizeof_ip + OPTION_SIZE)).length = 8 ∧
      load16 bo p (sizeof_ip + OPTION_SIZE + icmp_checksum)
        = load16 bo p' (sizeof_ip + OPTION_SIZE + icmp_checksum) := by
  refine ⟨_, _, main_datagram_eq hL bo A B, main_datagram_eq hL bo A' B', ?_, ?_, ?_⟩
  · rw [assembled_probe_header, assembled_probe_header]
  · rw [assembled_probe_header, probe_header_length]
  · rw [load16_icmp_checksum _ _ _ _ _ (icmpCsum_lt bo),
      load16_icmp_checksum _ _ _ _ _ (icmpCsum_lt bo)]

/-- Witness of C11: two unrelated address pairs on a 64-bit little-endian host. -/
theorem probe_header_independent_of_addresses_witness :
    ∃ p p', main_datagram 64 .little 0x0100007f 0x0200000a = some p ∧
      main_datagram 64 .little 0x0101a8c0 0x08080808 = some p' ∧
      p.drop (sizeof_ip + OPTION_SIZE) = p'.drop (sizeof_ip + OPTION_SIZE) ∧
      (p.drop (sizeof_ip + OPTION_SIZE)).length = 8 ∧
      load16 .little p (sizeof_ip + OPTION_SIZE + icmp_checksum)
        = load16 .little p' (sizeof_ip + OPTION_SIZE + icmp_checksum) :=
  probe_header_independent_of_addresses 64 (by decide) .little
    0x0100007f 0x0200000a 0x0101a8c0 0x08080808

/-- Adding the complement of its folded value to a sum gives a sum that folds to
`0xFFFF`. -/
theorem foldCarries_add_complement (s : Nat) :
    foldCarries (s + (65535 - foldCarries s)) = 65535 := by
  have hf := foldCarries_closed s
  have hg := foldCarries_closed (s + (65535 - foldCarries s))
  generalize foldCarries (s + (65535 - foldCarries s)) = g at *
  generalize foldCarries s = f at *
  split at hf <;> split at hg <;> omega

theorem final_header_words (bo : ByteOrder) (A B c1 c2 : Nat) (h : c1 < 65536) :
    (wordsFrom bo (assembled bo A B c1 c2) 0).take 30
      = ((wordsFrom bo (ip_stage bo OPTION_SIZE A B) 0).take 30).set 5 c1 := by
  cases bo
  · have e : c1 % 256 + 256 * (c1 / 256 % 256) = c1 := by omega
    rw [assembled_little, ip_words_little]
    refine Eq.trans ?_ (congrArg (fun x => ((wordsFrom ByteOrder.little
      (ip_stage ByteOrder.little OPTION_SIZE A B) 0).take 30).set 5 x) e)
    rw [ip_words_little]
    rfl
  · have e : 256 * (c1 / 256 % 256) + c1 % 256 = c1 := by omega
    rw [assembled_big, ip_words_big]
    refine Eq.trans ?_ (congrArg (fun x => ((wordsFrom ByteOrder.big
      (ip_stage ByteOrder.big OPTION_SIZE A B) 0).take 30).set 5 x) e)
    rw [ip_words_big]
    rfl

theorem final_icmp_words (bo : ByteOrder) (A B c1 c2 : Nat) (h : c2 < 65536) :
    wordsFrom bo (assembled bo A B c1 c2) (sizeof_ip + OPTION_SIZE)
      = (icmpWords bo).set 1 c2 := by
  cases bo
  · have e : c2 % 256 + 256 * (c2 / 256 % 256) = c2 := by omega
    rw [assembled_little]
    exact Eq.trans rfl (congrArg (fun x => (icmpWords ByteOrder.little).set 1 x) e)
  · have e : 256 * (c2 / 256 % 256) + c2 % 256 = c2 := by omega
    rw [assembled_big]
    exact Eq.trans rfl (congrArg (fun x => (icmpWords ByteOrder.big).set 1 x) e)

theorem header_checksum_word_zero (bo : ByteOrder) (A B : Nat) :
    ((wordsFrom bo (ip_stage bo OPTION_SIZE A B) 0).take 30).getD 5 0 = 0 := by
  cases bo
  · rw [ip_words_little]; rfl
  · rw [ip_words_big]; rfl

theorem final_header_sum (bo : ByteOrder) (A B c1 c2 : Nat) (h : c1 < 65536) :
    ((wordsFrom bo (assembled bo A B c1 c2) 0).take 30).sum = ipSum bo A B + c1 := by
  have hs := sum_set_add ((wordsFrom bo (ip_stage bo OPTION_SIZE A B) 0).take 30) 5 c1
    (by rw [List.length_take, ip_words_length]; decide)
  rw [header_checksum_word_zero, Nat.add_zero, header_region_sum] at hs
  rw [final_header_words bo A B c1 c2 h, hs]

theorem final_words_length (bo : ByteOrder) (A B c1 c2 : Nat) :
    (wordsFrom bo (assembled bo A B c1 c2) 0).length = 34 := by
  cases bo
  · rw [assembled_little]; rfl
  · rw [assembled_big]; rfl

theorem final_header_validates {L : Nat} (hL : 32 ≤ L) (bo : ByteOrder) (A B c2 : Nat) :
    csum L (wordsFrom bo (assembled bo A B (ipCsum bo A B) c2) 0) 30 = some 0 := by
  have hc := ipCsum_lt bo A B
  have h := csum_take hL (wordsFrom bo (assembled bo A B (ipCsum bo A B) c2) 0) 30
    (by rw [final_words_length]; decide)
    (by
      rw [final_header_words bo A B _ c2 hc]
      exact words_set_lt _ 5 _
        (fun w hw => ip_words_lt bo A B w (List.mem_of_mem_take hw)) hc)
    (by norm_num)
  rw [final_header_sum bo A B _ c2 hc, ipCsum, foldCarries_add_complement] at h
  exact h

theorem final_probe_validates {L : Nat} (hL : 32 ≤ L) (bo : ByteOrder) (A B c1 : Nat) :
    csum L (wordsFrom bo (assembled bo A B c1 (icmpCsum bo)) (sizeof_ip + OPTION_SIZE)) 4
      = some 0 := by
  have hc := icmpCsum_lt bo
  have hw : ∀ w ∈ icmpWords bo, w < 65536 := by cases bo <;> decide
  have hlen : ((icmpWords bo).set 1 (icmpCsum bo)).length = 4 := by
    cases bo <;> rfl
  have h := csum_take hL ((icmpWords bo).set 1 (icmpCsum bo)) 4 (by rw [hlen])
    (fun w hm => words_set_lt _ 1 _ hw hc w (List.mem_of_mem_take hm)) (by norm_num)
  have hs := sum_set_add (icmpWords bo) 1 (icmpCsum bo) (by cases bo <;> decide)
  have hz : (icmpWords bo).getD 1 0 = 0 := by cases bo <;> rfl
  rw [hz, Nat.add_zero, ← icmpSum_eq] at hs
  rw [List.take_of_length_le (by rw [hlen]), hs, icmpCsum, foldCarries_add_complement] at h
  rw [final_icmp_words bo A B c1 _ hc]
  exact h

theorem csum_of_take (L : Nat) (buf : List Nat) (n : Nat) (h : n ≤ buf.length) :
    csum L (buf.take n) (n : Int) = csum L buf (n : Int) := by
  have hp : 0 < 2 ^ L := Nat.pos_pow_of_pos L (by norm_num)
  simp only [csum, Int.toNat_ofNat,
    csum_loop_eq L n 0 buf hp h,
    csum_loop_eq L n 0 (buf.take n) hp (by rw [List.length_take]; omega),
    List.take_take, Nat.min_self]

theorem final_take_words (bo : ByteOrder) (A B c1 c2 : Nat) :
    wordsFrom bo ((assembled bo A B c1 c2).take 60) 0
      = (wordsFrom bo (assembled bo A B c1 c2) 0).take 30 := by
  cases bo
  · rw [assembled_little]; rfl
  · rw [assembled_big]; rfl

/-- C14: the finished packet validates.  For every source `A` and destination `B`,
`csum` over packet bytes `[0,60)` (30 words, the IP checksum in place) returns 0 and
`csum` over packet bytes `[60,68)` (4 words, the ICMP checksum in place) returns 0:
writing the probe header after the IP checksum was computed over all 34 words does not
invalidate the IP checksum. -/
theorem finished_packet_validates (L : Nat) (hL : 32 ≤ L) (bo : ByteOrder) (A B : Nat) :
    ∃ pkt, main_datagram L bo A B = some pkt ∧
      csum L (wordsFrom bo pkt 0) 30 = some 0 ∧
      csum L (wordsFrom bo (pkt.take 60) 0) 30 = some 0 ∧
      csum L (wordsFrom bo pkt (sizeof_ip + OPTION_SIZE)) 4 = some 0 ∧
      csum L (wordsFrom bo (pkt.drop 60) 0) 4 = some 0 := by
  refine ⟨_, main_datagram_eq hL bo A B, final_header_validates hL bo A B _, ?_,
    final_probe_validates hL bo A B _, ?_⟩
  · rw [final_take_words]
    exact (csum_of_take L _ 30 (by rw [final_words_length]; decide)).trans
      (final_header_validates hL bo A B _)
  · have e : ∀ m : List Nat, wordsFrom bo (m.drop 60) 0 = wordsFrom bo m 60 := by
      intro m
      simp only [wordsFrom, List.drop_drop, List.drop_zero]
    rw [e]
    exact final_probe_validates hL bo A B _

/-- Witness of C14: a 32-bit big-endian host, source 127.0.0.1, destination 10.0.0.2. -/
theorem finished_packet_validates_witness :
    ∃ pkt, main_datagram 32 .big 0x7f000001 0x0a000002 = some pkt ∧
      csum 32 (wordsFrom .big pkt 0) 30 = some 0 ∧
      csum 32 (wordsFrom .big (pkt.take 60) 0) 30 = some 0 ∧
      csum 32 (wordsFrom .big pkt (sizeof_ip + OPTION_SIZE)) 4 = some 0 ∧
      csum 32 (wordsFrom .big (pkt.drop 60) 0) 4 = some 0 :=
  finished_packet_validates 32 (by decide) .big 0x7f000001 0x0a000002

/-! ## Two folds suffice; byte order of the words -/

theorem csum_finish_fold (L : Nat) (s : Nat) :
    csum_finish L s = (2 ^ L - 1 - csum_fold L s) % 2 ^ 16 := rfl

theorem csum_fold_low16 {L : Nat} (hL : 32 ≤ L) {s : Nat} (hs : s < 4294967296) :
    csum_fold L s % 65536 = foldCarries s := by
  have h32 := two_pow_ge hL
  have e1 : s >>> 16 = s / 65536 := by rw [Nat.shiftRight_eq_div_pow]
  have e2 : s &&& 0xffff = s % 65536 := by
    have := Nat.and_pow_two_sub_one_eq_mod s 16
    simpa using this
  have h1 : (s / 65536 + s % 65536) % 2 ^ L = s / 65536 + s % 65536 :=
    Nat.mod_eq_of_lt (by omega)
  have e3 : (s / 65536 + s % 65536) >>> 16 = (s / 65536 + s % 65536) / 65536 := by
    rw [Nat.shiftRight_eq_div_pow]
  have h2 : (s / 65536 + s % 65536 + (s / 65536 + s % 65536) / 65536) % 2 ^ L
      = s / 65536 + s % 65536 + (s / 65536 + s % 65536) / 65536 :=
    Nat.mod_eq_of_lt (by omega)
  simp only [csum_fold, e1, e2, h1, e3, h2]
  exact two_folds_low16 hs

theorem csum_loop_no_wrap {L : Nat} (hL : 32 ≤ L) (buf : List Nat)
    (hw : ∀ w ∈ buf, w < 65536) (hlen : buf.length ≤ 65537) :
    csum_loop L 0 buf buf.length = some buf.sum ∧ buf.sum ≤ 4294967295 := by
  have h32 := two_pow_ge hL
  have hb := sum_le_of_words buf hw
  have hs : buf.sum ≤ 4294967295 := by omega
  have h := csum_loop_eq L buf.length 0 buf (by omega) (Nat.le_refl _)
  rw [List.take_length, Nat.zero_add, Nat.mod_eq_of_lt (by omega)] at h
  exact ⟨h, hs⟩

/-- C15: two folding steps suffice under the size bound.  For every sequence of at most
65537 16-bit words the sum accumulated by the loop of `csum` is the plain sum of the
words and is at most `2^32 - 1`; after the two folding statements the low 16 bits of
`sum` equal the fully folded one's-complement sum; so `csum` returns the complement of
the one's-complement sum, in particular on the two regions `main` passes (34 words from
the start of the datagram, 4 words from the ICMP header). -/
theorem two_folds_suffice (L : Nat) (hL : 32 ≤ L) (buf : List Nat)
    (hw : ∀ w ∈ buf, w < 65536) (hlen : buf.length ≤ 65537) :
    csum_loop L 0 buf buf.length = some buf.sum ∧
    buf.sum ≤ 2 ^ 32 - 1 ∧
    csum_fold L buf.sum % 2 ^ 16 = onesComplementSum buf ∧
    csum L buf (buf.length : Int) = some (not16 (onesComplementSum buf)) ∧
    (∀ (bo : ByteOrder) (A B : Nat),
      csum L (wordsFrom bo (ip_stage bo OPTION_SIZE A B) 0) 34
        = some (not16 (onesComplementSum
            ((wordsFrom bo (ip_stage bo OPTION_SIZE A B) 0).take 34)))) ∧
    (∀ (bo : ByteOrder) (A B c1 : Nat),
      csum L
          (wordsFrom bo
            (build_icmp_header bo (sizeof_ip + OPTION_SIZE)
              (store16 bo (ip_stage bo OPTION_SIZE A B) ip_sum c1))
            (sizeof_ip + OPTION_SIZE)) 4
        = some (not16 (onesComplementSum
            ((wordsFrom bo
              (build_icmp_header bo (sizeof_ip + OPTION_SIZE)
                (store16 bo (ip_stage bo OPTION_SIZE A B) ip_sum c1))
              (sizeof_ip + OPTION_SIZE)).take 4)))) := by
  obtain ⟨hloop, hs⟩ := csum_loop_no_wrap hL buf hw hlen
  have hnot : ∀ s, 65535 - foldCarries s = not16 (foldCarries s) := by
    intro s
    rw [not16, Nat.mod_eq_of_lt (foldCarries_lt _)]
  refine ⟨hloop, by norm_num; exact hs, ?_, ?_, ?_, ?_⟩
  · exact csum_fold_low16 hL (by omega)
  · have h := csum_take hL buf buf.length (Nat.le_refl _) (by simpa using hw) hlen
    rw [List.take_length] at h
    rw [h, onesComplementSum, hnot]
  · intro bo A B
    have h := csum_take hL (wordsFrom bo (ip_stage bo OPTION_SIZE A B) 0) 34
      (by rw [ip_words_length])
      (fun w hm => ip_words_lt bo A B w (List.mem_of_mem_take hm)) (by norm_num)
    rw [onesComplementSum, ← hnot]
    exact h
  · intro bo A B c1
    rw [icmp_words_at, onesComplementSum, ← hnot]
    exact csum_take hL (icmpWords bo) 4 (by cases bo <;> decide)
      (by cases bo <;> decide) (by norm_num)

/-- Witness of C15: a five-word buffer on a 32-bit `unsigned long`. -/
theorem two_folds_suffice_witness :
    csum_loop 32 0 [65535, 65535, 1, 4660, 65535]
        ([65535, 65535, 1, 4660, 65535] : List Nat).length
      = some ([65535, 65535, 1, 4660, 65535] : List Nat).sum ∧
    ([65535, 65535, 1, 4660, 65535] : List Nat).sum ≤ 2 ^ 32 - 1 ∧
    csum_fold 32 ([65535, 65535, 1, 4660, 65535] : List Nat).sum % 2 ^ 16
      = onesComplementSum [65535, 65535, 1, 4660, 65535] ∧
    csum 32 [65535, 65535, 1, 4660, 65535]
        (([65535, 65535, 1, 4660, 65535] : List Nat).length : Int)
      = some (not16 (onesComplementSum [65535, 65535, 1, 4660, 65535])) :=
  have h := two_folds_suffice 32 (by decide) [65535, 65535, 1, 4660, 65535]
    (by decide) (by decide)
  ⟨h.1, h.2.1, h.2.2.1, h.2.2.2.1⟩

theorem bswap16_mul (w : Nat) (hw : w < 65536) :
    256 * w = 65535 * (w / 256) + bswap16 w := by
  unfold bswap16; omega

theorem bswap16_lt (w : Nat) : bswap16 w < 65536 := by
  unfold bswap16; omega

theorem bswap16_eq_zero (w : Nat) (hw : w < 65536) : bswap16 w = 0 ↔ w = 0 := by
  unfold bswap16; omega

theorem bswap16_complement (f : Nat) (hf : f ≤ 65535) :
    65535 - bswap16 f = bswap16 (65535 - f) := by
  unfold bswap16; omega

theorem bswap16_of_congr (f g : Nat) (hf1 : 1 ≤ f) (hf : f ≤ 65535) (hg1 : 1 ≤ g)
    (hg : g ≤ 65535) (h : g % 65535 = (256 * f) % 65535) : g = bswap16 f := by
  have h1 := bswap16_mul f (by omega)
  have h2 := bswap16_lt f
  have h3 := bswap16_eq_zero f (by omega)
  generalize bswap16 f = x at *
  generalize f / 256 = q at *
  omega

theorem folded_congr (s t f g : Nat) (h1 : t % 65535 = (256 * s) % 65535) (hs : s ≠ 0)
    (ht : t ≠ 0) (hf : f = (s - 1) % 65535 + 1) (hg : g = (t - 1) % 65535 + 1) :
    g % 65535 = (256 * f) % 65535 := by
  omega

/-- The folded sum of byte-swapped data is the byte-swap of the folded sum. -/
theorem foldCarries_bswap (s t : Nat) (h1 : t % 65535 = (256 * s) % 65535)
    (h0 : t = 0 ↔ s = 0) : foldCarries t = bswap16 (foldCarries s) := by
  rw [foldCarries_closed, foldCarries_closed]
  by_cases hs : s = 0
  · rw [if_pos hs, if_pos (h0.mpr hs)]; rfl
  · have ht : t ≠ 0 := fun h => hs (h0.mp h)
    rw [if_neg hs, if_neg ht]
    exact bswap16_of_congr _ _ (by omega) (by omega) (by omega) (by omega)
      (folded_congr s t _ _ h1 hs ht rfl rfl)

theorem sum_map_bswap16 :
    ∀ (ws : List Nat), (∀ w ∈ ws, w < 65536) →
      (ws.map bswap16).sum % 65535 = (256 * ws.sum) % 65535 ∧
      ((ws.map bswap16).sum = 0 ↔ ws.sum = 0)
  | [], _ => by simp
  | w :: rest, h => by
    have hw : w < 65536 := h w (by simp)
    obtain ⟨ih1, ih0⟩ := sum_map_bswap16 rest (fun x hx => h x (by simp [hx]))
    have h1 := bswap16_mul w hw
    have h3 := bswap16_eq_zero w hw
    simp only [List.map_cons, List.sum_cons]
    generalize (rest.map bswap16).sum = t at *
    generalize rest.sum = r at *
    generalize bswap16 w = x at *
    generalize w / 256 = q at *
    constructor <;> omega

theorem words_wordBytes_little :
    ∀ (ws : List Nat), (∀ w ∈ ws, w < 65536) → words .little (wordBytes ws) = ws
  | [], _ => rfl
  | w :: rest, h => by
    have hw : w < 65536 := h w (by simp)
    have ih := words_wordBytes_little rest (fun x hx => h x (by simp [hx]))
    simp only [wordBytes, words, ih]
    congr 1
    omega

theorem words_wordBytes_big :
    ∀ (ws : List Nat), words .big (wordBytes ws) = ws.map bswap16
  | [] => rfl
  | w :: rest => by
    have ih := words_wordBytes_big rest
    simp only [wordBytes, words, ih, List.map_cons, bswap16]
    congr 1
    omega

theorem stored_bytes_bswap16 (c : Nat) :
    store16 .little [0, 0] 0 c = store16 .big [0, 0] 0 (bswap16 c) := by
  show [c % 256, c / 256 % 256] = [bswap16 c / 256 % 256, bswap16 c % 256]
  have hl : c % 256 < 256 := Nat.mod_lt _ (by norm_num)
  have hh : c / 256 % 256 < 256 := Nat.mod_lt _ (by norm_num)
  have e1 : bswap16 c / 256 % 256 = c % 256 := by
    unfold bswap16
    generalize c % 256 = l at *
    generalize c / 256 % 256 = h at *
    omega
  have e2 : bswap16 c % 256 = c / 256 % 256 := by
    unfold bswap16
    generalize c % 256 = l at *
    generalize c / 256 % 256 = h at *
    omega
  rw [e1, e2]

theorem csum_map_bswap16 {L : Nat} (hL : 32 ≤ L) (ws : List Nat)
    (hw : ∀ w ∈ ws, w < 65536) (hlen : ws.length ≤ 65537) :
    csum L ws (ws.length : Int) = some (65535 - foldCarries ws.sum) ∧
    csum L (ws.map bswap16) (ws.length : Int)
      = some (bswap16 (65535 - foldCarries ws.sum)) := by
  have h := csum_take hL ws ws.length (Nat.le_refl _) (by simpa using hw) hlen
  rw [List.take_length] at h
  have hw2 : ∀ w ∈ ws.map bswap16, w < 65536 := by
    intro w hm
    obtain ⟨a, _, rfl⟩ := List.mem_map.mp hm
    exact bswap16_lt a
  have hl : (ws.map bswap16).length = ws.length := List.length_map _ _
  have h2 := csum_take hL (ws.map bswap16) ws.length (by rw [hl])
    (fun w hm => hw2 w (List.mem_of_mem_take hm)) hlen
  rw [List.take_of_length_le (by rw [hl])] at h2
  obtain ⟨hs1, hs0⟩ := sum_map_bswap16 ws hw
  have hf := foldCarries_lt ws.sum
  rw [foldCarries_bswap ws.sum _ hs1 hs0, bswap16_complement _ (by omega)] at h2
  exact ⟨h, h2⟩

/-- C16: byte-order independence of `csum`.  For every sequence `ws` of at most 65537
16-bit words, `csum` of the sequence with the two bytes of every word swapped equals the
byte-swap of `csum(ws)`.  Hence for the byte buffer holding `ws`, the checksum read as
little-endian words and stored little-endian, and the checksum read as big-endian words
and stored big-endian, are the same two bytes. -/
theorem csum_byte_order_independent (L : Nat) (hL : 32 ≤ L) (ws : List Nat)
    (hw : ∀ w ∈ ws, w < 65536) (hlen : ws.length ≤ 65537) :
    ∃ c, csum L ws (ws.length : Int) = some c ∧
      csum L (ws.map bswap16) ((ws.map bswap16).length : Int) = some (bswap16 c) ∧
      ∃ c', csum L (words .little (wordBytes ws)) (ws.length : Int) = some c ∧
        csum L (words .big (wordBytes ws)) (ws.length : Int) = some c' ∧
        store16 .little [0, 0] 0 c = store16 .big [0, 0] 0 c' := by
  obtain ⟨h1, h2⟩ := csum_map_bswap16 hL ws hw hlen
  refine ⟨_, h1, ?_, _, ?_, ?_, stored_bytes_bswap16 _⟩
  · rw [List.length_map]; exact h2
  · rw [words_wordBytes_little ws hw]; exact h1
  · rw [words_wordBytes_big]; exact h2

/-- Witness of C16: four words on a 64-bit `unsigned long`. -/
theorem csum_byte_order_independent_witness :
    ∃ c, csum 64 [0x4500, 0x0044, 0xFFFF, 0x1234] (([0x4500, 0x0044, 0xFFFF, 0x1234] :
        List Nat).length : Int) = some c ∧
      csum 64 (([0x4500, 0x0044, 0xFFFF, 0x1234] : List Nat).map bswap16)
        (((([0x4500, 0x0044, 0xFFFF, 0x1234] : List Nat).map bswap16).length : Nat) : Int)
        = some (bswap16 c) ∧
      ∃ c', csum 64 (words .little (wordBytes [0x4500, 0x0044, 0xFFFF, 0x1234]))
          (([0x4500, 0x0044, 0xFFFF, 0x1234] : List Nat).length : Int) = some c ∧
        csum 64 (words .big (wordBytes [0x4500, 0x0044, 0xFFFF, 0x1234]))
          (([0x4500, 0x0044, 0xFFFF, 0x1234] : List Nat).length : Int) = some c' ∧
        store16 .little [0, 0] 0 c = store16 .big [0, 0] 0 c' :=
  csum_byte_order_independent 64 (by decide) [0x4500, 0x0044, 0xFFFF, 0x1234]
    (by decide) (by decide)

/-! ## Determinism -/

theorem memset_all (stack : List Nat) (n : Nat) (h : stack.length = n) :
    memset stack 0 n = List.replicate n 0 := by
  rw [memset, List.drop_of_length_le (by omega), List.append_nil]

theorem build_on_eq_build (L : Nat) (bo : ByteOrder) (S : Nat) (stack : List Nat)
    (A B : Nat) (h : stack.length = N S) :
    build_on L bo S stack A B = build L bo S A B := by
  simp only [build_on, build, ip_stage, memset_all stack (N S) h]

theorem assembled_length (bo : ByteOrder) (A B c1 c2 : Nat) :
    (assembled bo A B c1 c2).length = 68 := by
  cases bo
  · rw [assembled_little]; rfl
  · rw [assembled_big]; rfl

/-- C12: the packet is a function of the source and destination addresses only.  Two
builds with the same `(A, B)` on a host of the given byte order produce byte-identical
68-byte packets, whatever the initial contents of the stack buffer and whatever the
width of `unsigned long`: line 123 zero-fills all `N` bytes of the buffer before any
byte is read. -/
theorem build_deterministic (L L' : Nat) (hL : 32 ≤ L) (hL' : 32 ≤ L') (bo : ByteOrder)
    (A B : Nat) (stack stack' : List Nat)
    (hs : stack.length = N OPTION_SIZE) (hs' : stack'.length = N OPTION_SIZE) :
    ∃ pkt, build_on L bo OPTION_SIZE stack A B = some pkt ∧
      build_on L' bo OPTION_SIZE stack' A B = some pkt ∧
      pkt.length = 68 ∧
      memset stack 0 (N OPTION_SIZE) = List.replicate 68 0 ∧
      memset stack' 0 (N OPTION_SIZE) = List.replicate 68 0 ∧
      main_datagram L bo A B = some pkt := by
  refine ⟨_, ?_, ?_, assembled_length bo A B _ _, memset_all stack _ hs,
    memset_all stack' _ hs', main_datagram_eq hL bo A B⟩
  · rw [build_on_eq_build L bo _ stack A B hs]
    exact main_datagram_eq hL bo A B
  · rw [build_on_eq_build L' bo _ stack' A B hs']
    exact main_datagram_eq hL' bo A B

/-- Witness of C12: a 64-bit and a 32-bit little-endian build, one on a stack buffer
full of `0xAA`, the other on one full of `0x55`. -/
theorem build_deterministic_witness :
    ∃ pkt, build_on 64 .little OPTION_SIZE (List.replicate 68 0xAA) 0x0100007f 0x0200000a
        = some pkt ∧
      build_on 32 .little OPTION_SIZE (List.replicate 68 0x55) 0x0100007f 0x0200000a
        = some pkt ∧
      pkt.length = 68 ∧
      memset (List.replicate 68 0xAA) 0 (N OPTION_SIZE) = List.replicate 68 0 ∧
      memset (List.replicate 68 0x55) 0 (N OPTION_SIZE) = List.replicate 68 0 ∧
      main_datagram 64 .little 0x0100007f 0x0200000a = some pkt :=
  build_deterministic 64 32 (by decide) (by decide) .little 0x0100007f 0x0200000a
    (List.replicate 68 0xAA) (List.replicate 68 0x55) (by decide) (by decide)

/-! ## The builder for a general option size: no validation -/

theorem store8_length (m : List Nat) (i v : Nat) : (store8 m i v).length = m.length := by
  rw [store8, List.length_set]

theorem store16_length (bo : ByteOrder) (m : List Nat) (off v : Nat) :
    (store16 bo m off v).length = m.length := by
  cases bo <;> simp only [store16, store8_length]

theorem store32_length (bo : ByteOrder) (m : List Nat) (off v : Nat) :
    (store32 bo m off v).length = m.length := by
  cases bo <;> simp only [store32, store16_length]

theorem build_ip_header_length (bo : ByteOrder) (S A B : Nat) (d : List Nat) :
    (build_ip_header bo S A B d).length = d.length := by
  simp only [build_ip_header, store32_length, store16_length, store8_length, set_ip_hl,
    set_ip_v, List.length_set]

theorem build_icmp_header_length (bo : ByteOrder) (icmph : Nat) (d : List Nat) :
    (build_icmp_header bo icmph d).length = d.length := by
  simp only [build_icmp_header, store16_length, store8_length]

theorem ip_stage_length (bo : ByteOrder) (S A B : Nat) :
    (ip_stage bo S A B).length = N S := by
  rw [ip_stage, build_ip_header_length, build_option_length, List.length_replicate]

theorem words_length (bo : ByteOrder) :
    ∀ (n : Nat) (m : List Nat), m.length ≤ n → (words bo m).length = m.length / 2
  | _, [], _ => rfl
  | _, [_], _ => by simp [words]
  | 0, _ :: _ :: _, h => by simp at h
  | n + 1, _ :: _ :: rest, h => by
    have ih := words_length bo n rest (by simp only [List.length_cons] at h; omega)
    simp only [words, List.length_cons, ih]
    omega

theorem wordsFrom_length (bo : ByteOrder) (m : List Nat) (off : Nat) :
    (wordsFrom bo m off).length = (m.length - off) / 2 := by
  rw [wordsFrom, words_length bo _ _ (Nat.le_refl _), List.length_drop]

theorem load8_store8_lt (m : List Nat) (i j v : Nat) (h : j < i) :
    load8 (store8 m i v) j = load8 m j := by
  simp only [load8, store8, List.getD_eq_getElem?_getD]
  rw [List.getElem?_set_ne (by omega)]

theorem load8_store16_lt (bo : ByteOrder) (m : List Nat) (off j v : Nat) (h : j < off) :
    load8 (store16 bo m off v) j = load8 m j := by
  cases bo <;>
    simp only [store16] <;>
    rw [load8_store8_lt _ _ _ _ (by omega), load8_store8_lt _ _ _ _ h]

theorem load8_store32_lt (bo : ByteOrder) (m : List Nat) (off j v : Nat) (h : j < off) :
    load8 (store32 bo m off v) j = load8 m j := by
  cases bo <;>
    simp only [store32] <;>
    rw [load8_store16_lt _ _ _ _ _ (by omega), load8_store16_lt _ _ _ _ _ h]

theorem load8_store8_self (m : List Nat) (i v : Nat) (h : i < m.length) :
    load8 (store8 m i v) i = v % 256 := by
  simp only [load8, store8, List.getD_eq_getElem?_getD]
  rw [List.getElem?_set, if_pos rfl, if_pos h]
  rfl

theorem load16_store16_self (bo : ByteOrder) (m : List Nat) (off v : Nat)
    (h : off + 1 < m.length) : load16 bo (store16 bo m off v) off = v % 65536 := by
  cases bo
  · simp only [load16, store16]
    rw [load8_store8_lt _ _ _ _ (by omega), load8_store8_self _ _ _ (by omega),
      load8_store8_self _ _ _ (by rw [store8_length]; exact h)]
    omega
  · simp only [load16, store16]
    rw [load8_store8_lt _ _ _ _ (by omega), load8_store8_self _ _ _ (by omega),
      load8_store8_self _ _ _ (by rw [store8_length]; exact h)]
    omega

theorem load16_store8_lt (bo : ByteOrder) (m : List Nat) (i off v : Nat) (h : off + 1 < i) :
    load16 bo (store8 m i v) off = load16 bo m off := by
  cases bo <;>
    simp only [load16] <;>
    rw [load8_store8_lt _ _ _ _ (by omega), load8_store8_lt _ _ _ _ (by omega)]

theorem load16_store16_lt (bo : ByteOrder) (m : List Nat) (i off v : Nat)
    (h : off + 1 < i) : load16 bo (store16 bo m i v) off = load16 bo m off := by
  cases bo <;>
    simp only [load16] <;>
    rw [load8_store16_lt _ _ _ _ _ (by omega), load8_store16_lt _ _ _ _ _ (by omega)]

theorem load16_store32_lt (bo : ByteOrder) (m : List Nat) (i off v : Nat)
    (h : off + 1 < i) : load16 bo (store32 bo m i v) off = load16 bo m off := by
  cases bo <;>
    simp only [load16] <;>
    rw [load8_store32_lt _ _ _ _ _ (by omega), load8_store32_lt _ _ _ _ _ (by omega)]

theorem load8_set_self (m : List Nat) (i x : Nat) (h : i < m.length) :
    load8 (m.set i x) i = x := by
  simp only [load8, List.getD_eq_getElem?_getD]
  rw [List.getElem?_set, if_pos rfl, if_pos h]
  rfl

theorem set_ip_length (m : List Nat) (v h : Nat) :
    (set_ip_hl (set_ip_v m v) h).length = m.length := by
  simp only [set_ip_hl, set_ip_v, List.length_set]

theorem ip_len_loaded_general (bo : ByteOrder) (S A B : Nat) (d : List Nat)
    (hd : 4 ≤ d.length) :
    load16 bo (build_ip_header bo S A B d) ip_len
      = (sizeof_ip + sizeof_icmphdr + S) % 65536 := by
  simp only [build_ip_header]
  rw [load16_store32_lt _ _ _ _ _ (by decide), load16_store32_lt _ _ _ _ _ (by decide),
    load16_store16_lt _ _ _ _ _ (by decide), load16_store8_lt _ _ _ _ _ (by decide),
    load16_store8_lt _ _ _ _ _ (by decide), load16_store16_lt _ _ _ _ _ (by decide),
    load16_store16_lt _ _ _ _ _ (by decide),
    load16_store16_self _ _ _ _ (by
      rw [store8_length, set_ip_length]
      have : ip_len = 2 := rfl
      omega)]

theorem first_byte_of_ip_header (bo : ByteOrder) (S A B : Nat) (d : List Nat)
    (hd : 0 < d.length) :
    load8 (build_ip_header bo S A B d) 0 = 64 + (5 + S / 4) % 16 := by
  simp only [build_ip_header]
  rw [load8_store32_lt _ _ _ _ _ (by decide), load8_store32_lt _ _ _ _ _ (by decide),
    load8_store16_lt _ _ _ _ _ (by decide), load8_store8_lt _ _ _ _ (by decide),
    load8_store8_lt _ _ _ _ (by decide), load8_store16_lt _ _ _ _ _ (by decide),
    load8_store16_lt _ _ _ _ _ (by decide), load8_store16_lt _ _ _ _ _ (by decide),
    load8_store8_lt _ _ _ _ (by decide)]
  rw [set_ip_hl, load8_set_self _ _ _ (by simp only [set_ip_v, List.length_set]; exact hd),
    set_ip_v, load8_set_self _ _ _ hd]
  omega

theorem first_byte_of_packet (bo : ByteOrder) (icmph c1 c2 : Nat) (m : List Nat) :
    load8 (store16 bo (build_icmp_header bo (sizeof_ip + icmph) (store16 bo m ip_sum c1))
      (sizeof_ip + icmph + icmp_checksum) c2) 0 = load8 m 0 := by
  have h20 : sizeof_ip = 20 := rfl
  have e0 : icmp_type = 0 := rfl
  have e1 : icmp_code = 1 := rfl
  have e2 : icmp_checksum = 2 := rfl
  have e4 : icmp_id = 4 := rfl
  have e6 : icmp_sequence = 6 := rfl
  simp only [build_icmp_header]
  rw [load8_store16_lt _ _ _ _ _ (by omega), load8_store16_lt _ _ _ _ _ (by omega),
    load8_store16_lt _ _ _ _ _ (by omega), load8_store16_lt _ _ _ _ _ (by omega),
    load8_store8_lt _ _ _ _ (by omega), load8_store8_lt _ _ _ _ (by omega),
    load8_store16_lt _ _ _ _ _ (by decide)]

theorem csum_some (L : Nat) (buf : List Nat) (n : Nat) (h : n ≤ buf.length) :
    ∃ c, csum L buf (n : Int) = some c := by
  have hp : 0 < 2 ^ L := Nat.pos_pow_of_pos L (by norm_num)
  refine ⟨csum_finish L ((0 + (buf.take n).sum) % 2 ^ L), ?_⟩
  simp only [csum, Int.toNat_ofNat, csum_loop_eq L n 0 buf hp h]

/-- For every option size the builder returns a packet: `N` bytes, first byte
`0x40 | ((5 + S/4) mod 16)`. -/
theorem build_returns (L : Nat) (bo : ByteOrder) (S A B : Nat) :
    ∃ pkt, build L bo S A B = some pkt ∧ pkt.length = N S ∧
      load8 pkt 0 = 64 + (5 + S / 4) % 16 := by
  have hN : N S = 28 + S := by simp only [N, sizeof_ip, sizeof_icmphdr]
  have h20 : sizeof_ip = 20 := rfl
  have h8 : sizeof_icmphdr = 8 := rfl
  have hlen0 : (build_option S (List.replicate (N S) 0)).length = N S := by
    rw [build_option_length, List.length_replicate]
  obtain ⟨c1, hc1⟩ := csum_some L (wordsFrom bo (ip_stage bo S A B) 0)
    (load16 bo (ip_stage bo S A B) ip_len >>> 1) (by
      rw [wordsFrom_length, ip_stage_length, ip_stage,
        ip_len_loaded_general bo S A B _ (by rw [hlen0]; omega),
        Nat.shiftRight_eq_div_pow]
      omega)
  obtain ⟨c2, hc2⟩ := csum_some L
    (wordsFrom bo (build_icmp_header bo (sizeof_ip + S)
      (store16 bo (ip_stage bo S A B) ip_sum c1)) (sizeof_ip + S)) (8 >>> 1) (by
      rw [wordsFrom_length, build_icmp_header_length, store16_length, ip_stage_length]
      have : 8 >>> 1 = 4 := rfl
      omega)
  refine ⟨store16 bo (build_icmp_header bo (sizeof_ip + S)
      (store16 bo (ip_stage bo S A B) ip_sum c1)) (sizeof_ip + S + icmp_checksum) c2,
    ?_, ?_, ?_⟩
  · simp only [build, hc1, hc2]
  · rw [store16_length, build_icmp_header_length, store16_length, ip_stage_length]
  · rw [first_byte_of_packet, ip_stage, first_byte_of_ip_header bo S A B _
      (by rw [hlen0]; omega)]

/-- C13 (as amended): taking the option size `S` as a parameter of the builder, the
builder validates nothing.  For every `S`, odd or below 2 included, the build returns a
packet of `N = 28 + S` bytes with version 4 and header-length field `(5 + S/4) mod 16`
words; that field agrees with the actual header byte length `20 + S` exactly when `S` is
a multiple of 4 and at most 40. -/
theorem build_does_not_validate (L : Nat) (bo : ByteOrder) (S A B : Nat) :
    ∃ pkt, build L bo S A B = some pkt ∧
      pkt.length = N S ∧
      get_ip_v pkt = 4 ∧
      get_ip_hl pkt = (5 + S / 4) % 16 ∧
      (4 * get_ip_hl pkt = sizeof_ip + S ↔ S % 4 = 0 ∧ S ≤ 40) := by
  obtain ⟨pkt, h, hl, hb⟩ := build_returns L bo S A B
  have h20 : sizeof_ip = 20 := rfl
  refine ⟨pkt, h, hl, ?_, ?_, ?_⟩
  · rw [get_ip_v, hb]; omega
  · rw [get_ip_hl, hb]; omega
  · rw [get_ip_hl, hb]; omega

/-- C13 (as stated) fails: the odd size `S = 3` and the size `S = 1 < 2` are not
rejected.  On a 64-bit little-endian host, for source 127.0.0.1 and destination 10.0.0.2,
the builder returns packets of 31 and 29 bytes whose header-length field is 5 words =
20 bytes, while the header and option occupy 23 and 21 bytes. -/
theorem odd_option_size_not_rejected :
    (∃ pkt, build 64 .little 3 0x0100007f 0x0200000a = some pkt ∧
      pkt = [69, 0, 31, 0, 0, 0, 0, 0, 127, 1, 250, 246, 127, 0, 0, 1, 10, 0, 0, 2,
        153, 3, 0, 8, 0, 196, 255, 18, 0, 33, 0] ∧
      pkt.length = 31 ∧ 4 * get_ip_hl pkt = 20 ∧ sizeof_ip + 3 = 23) ∧
    (∃ pkt, build 64 .little 1 0x0100007f 0x0200000a = some pkt ∧
      pkt = [69, 0, 29, 0, 0, 0, 0, 0, 127, 1, 252, 248, 127, 0, 0, 1, 10, 0, 0, 2,
        153, 8, 0, 196, 255, 18, 0, 33, 0] ∧
      pkt.length = 29 ∧ 4 * get_ip_hl pkt = 20 ∧ sizeof_ip + 1 = 21) := by
  constructor
  · exact ⟨[69, 0, 31, 0, 0, 0, 0, 0, 127, 1, 250, 246, 127, 0, 0, 1, 10, 0, 0, 2,
      153, 3, 0, 8, 0, 196, 255, 18, 0, 33, 0], by decide, rfl, by decide, by decide,
      by decide⟩
  · exact ⟨[69, 0, 29, 0, 0, 0, 0, 0, 127, 1, 252, 248, 127, 0, 0, 1, 10, 0, 0, 2,
      153, 8, 0, 196, 255, 18, 0, 33, 0], by decide, rfl, by decide, by decide,
      by decide⟩

end PingRat
